import Mathlib

/-!
Verification development for the README generator script
(`generate-readmes.py`).  The script is shallowly embedded: pure string
manipulation is translated to Lean functions on `String`/`List Char`, the
filesystem is a rose tree of directories, and the driver's two phases
(discovery walk, depth-ordered generation) are folds over lists.
-/

namespace ReadmeGen

/-! ## Python string primitives used by the script -/

/-- Model of Python `str.endswith`: `s` ends with `t` (by characters). -/
def pyEndsWith (s t : String) : Bool :=
  s.data.reverse.take t.data.length == t.data.reverse

/-- Index of the last `'.'` in a character list, if any. -/
def lastDotIdx : List Char → Option Nat
  | [] => none
  | c :: cs =>
    match lastDotIdx cs with
    | some i => some (i + 1)
    | none => if c = '.' then some 0 else none

/-- Model of Python `pathlib.PurePath.suffix` for a file name: the part of
the name from the last dot on, but only when that dot is neither the first
nor the last character; otherwise the empty string. -/
def pySuffix (name : String) : String :=
  match lastDotIdx name.data with
  | some i => if 0 < i ∧ i < name.data.length - 1 then ⟨name.data.drop i⟩ else ""
  | none => ""

/-- Characterwise worker for `pyTitle`; the flag records whether the
previous character was alphabetic (cased). -/
def pyTitleAux : List Char → Bool → List Char
  | [], _ => []
  | c :: cs, prevAlpha =>
    (if c.isAlpha then (if prevAlpha then c.toLower else c.toUpper) else c)
      :: pyTitleAux cs c.isAlpha

/-- Model of Python `str.title` (for the ASCII names the script deals
with): uppercase every letter that follows a non-letter, lowercase the
rest. -/
def pyTitle (s : String) : String := ⟨pyTitleAux s.data false⟩

/-- Model of `len(f.readlines())` in Python text mode (universal
newlines): counts line terminators `\n`, `\r\n`, `\r`, plus a final
unterminated line. -/
def pyLineCount : List Char → Nat
  | [] => 0
  | '\n' :: rest => 1 + pyLineCount rest
  | '\r' :: '\n' :: rest => 1 + pyLineCount rest
  | '\r' :: rest => 1 + pyLineCount rest
  | [_] => 1
  | _ :: rest => pyLineCount rest

/-- Model of Python `'\n'.join(lines)`. -/
def joinLines : List String → String
  | [] => ""
  | [l] => l
  | l :: ls => l ++ "\n" ++ joinLines ls

/-- Decimal digit character (for `n < 10`). -/
def digitChar (n : Nat) : Char :=
  match n with
  | 0 => '0' | 1 => '1' | 2 => '2' | 3 => '3' | 4 => '4'
  | 5 => '5' | 6 => '6' | 7 => '7' | 8 => '8' | _ => '9'

/-- Accumulator worker for `natStr`; the first argument is fuel, always
sufficient because each step divides the value by ten. -/
def natStrAux : Nat → Nat → List Char → List Char
  | 0, _, acc => acc
  | fuel + 1, n, acc =>
    if n < 10 then digitChar n :: acc
    else natStrAux fuel (n / 10) (digitChar (n % 10) :: acc)

/-- Model of Python `str(k)` / f-string interpolation for a nonnegative
integer: decimal notation. -/
def natStr (n : Nat) : String := ⟨natStrAux (n + 1) n []⟩

/-! ## Folder analysis (`analyze_folder`, lines 12-51) -/

/-- The dictionary built by `analyze_folder`.  The Python dict also stores
`'path': str(folder_path)`, which no other part of the program ever reads;
it is omitted here. -/
structure FolderInfo where
  name : String
  files : List String
  subfolders : List String
  line_counts : List (String × Nat)
  has_typescript : Bool
  has_javascript : Bool
  has_json : Bool
  has_markdown : Bool
deriving Repr, DecidableEq

/-- The initial `info` dictionary (lines 14-24). -/
def initInfo (name : String) : FolderInfo :=
  { name := name, files := [], subfolders := [], line_counts := []
    has_typescript := false, has_javascript := false
    has_json := false, has_markdown := false }

/-- Line count recorded for one file: `len(readlines())` on success, `0`
when the read raises (lines 34-39).  `none` stands for an unreadable
file. -/
def recordedCount : Option String → Nat
  | some c => pyLineCount c.data
  | none => 0

/-- One iteration of the `folder_path.iterdir()` loop for a regular file
(lines 27-46): record the name, then classify by `item.suffix`. -/
def analyzeFile (info : FolderInfo) (f : String × Option String) : FolderInfo :=
  let info := { info with files := info.files ++ [f.1] }
  if pySuffix f.1 = (".ts") ∨ pySuffix f.1 = (".tsx") then
    { info with has_typescript := true
                line_counts := info.line_counts ++ [(f.1, recordedCount f.2)] }
  else if pySuffix f.1 = (".js") ∨ pySuffix f.1 = (".jsx") then
    { info with has_javascript := true }
  else if pySuffix f.1 = (".json") then
    { info with has_json := true }
  else if pySuffix f.1 = (".md") then
    { info with has_markdown := true }
  else info

/-- One iteration of the loop for a subdirectory (lines 48-49): listed
unless its name is in the fixed exclusion set. -/
def analyzeDir (info : FolderInfo) (d : String) : FolderInfo :=
  if d = ("node_modules") ∨ d = (".git") ∨ d = ("__pycache__") then info
  else { info with subfolders := info.subfolders ++ [d] }

/-- `analyze_folder` (lines 12-51).  The single `iterdir` loop appends
files and subdirectories to disjoint fields, so it is modelled as two
folds over the file entries (name and readable content) and the
subdirectory names, each in enumeration order. -/
def analyze_folder (name : String) (files : List (String × Option String))
    (subdirs : List String) : FolderInfo :=
  subdirs.foldl analyzeDir (files.foldl analyzeFile (initInfo name))

/-! ## Template renderer (`generate_readme_content`, lines 53-141) -/

/-- The `purpose_map` dictionary (lines 63-78), in source order. -/
def purposeList : List (String × String) :=
  [("agent", "AI Agent System"),
   ("memory", "Memory Management System"),
   ("cli", "Command-Line Interface"),
   ("gateway", "Main Gateway/Server"),
   ("tools", "Tool Definitions and Implementations"),
   ("utils", "Utility Functions"),
   ("types", "TypeScript Type Definitions"),
   ("plugins", "Plugin System"),
   ("protocol", "Communication Protocols"),
   ("storage", "Data Storage and Persistence"),
   ("web", "Web Interface/Dashboard"),
   ("shadow", "Shadow/Parallel Execution System"),
   ("subagents", "Sub-agent Management"),
   ("config", "Configuration Management")]

/-- `purpose_map.get(folder_name, f'{folder_name.title()} Module')`
(line 80): an exact dictionary lookup of the folder name with a
titlecased default. -/
def purposeOf (name : String) : String :=
  match purposeList.lookup name with
  | some p => p
  | none => pyTitle name ++ (" Module")

/-- The title line appended at line 84. -/
def titleLine (name : String) : String :=
  ("# 📁 ") ++ name ++ ("/ - ") ++ purposeOf name

/-- A Key Files entry with a line count (line 95). -/
def countLineFor (f : String) (k : Nat) : String :=
  ("- `") ++ f ++ ("` - (") ++ natStr k ++ (" lines) [Description]")

/-- A Key Files entry without a line count (line 97). -/
def genericLineFor (f : String) : String :=
  ("- `") ++ f ++ ("` - [Description]")

/-- Lexicographic code-point comparison of character lists — the order
Python's `<=` on `str` induces. -/
def listCharLe : List Char → List Char → Bool
  | [], _ => true
  | _ :: _, [] => false
  | a :: as, b :: bs =>
    if a.toNat = b.toNat then listCharLe as bs
    else decide (a.toNat < b.toNat)

/-- Python's `<=` on strings: lexicographic by code point. -/
def pyLe (a b : String) : Prop := listCharLe a.data b.data = true

instance : DecidableRel pyLe :=
  fun _ _ => inferInstanceAs (Decidable (_ = true))

instance : IsTotal String pyLe := by
  constructor
  intro a b
  show listCharLe a.data b.data = true ∨ listCharLe b.data a.data = true
  generalize a.data = x
  generalize b.data = y
  induction x generalizing y with
  | nil => exact Or.inl rfl
  | cons c cs ih =>
    cases y with
    | nil => exact Or.inr rfl
    | cons d ds =>
      by_cases h : c.toNat = d.toNat
      · rcases ih ds with ht | ht
        · exact Or.inl (by simp [listCharLe, h, ht])
        · exact Or.inr (by simp [listCharLe, h.symm, ht])
      · by_cases hlt : c.toNat < d.toNat
        · exact Or.inl (by simp [listCharLe, h, hlt])
        · have h2 : ¬ d.toNat = c.toNat := fun e => h e.symm
          have h3 : d.toNat < c.toNat := by omega
          exact Or.inr (by simp [listCharLe, h2, h3])

instance : IsTrans String pyLe := by
  constructor
  intro a b c
  show listCharLe a.data b.data = true → listCharLe b.data c.data = true →
    listCharLe a.data c.data = true
  generalize a.data = x
  generalize b.data = y
  generalize c.data = z
  induction x generalizing y z with
  | nil => intro _ _; rfl
  | cons u us ih =>
    intro h1 h2
    cases y with
    | nil => simp [listCharLe] at h1
    | cons v vs =>
      cases z with
      | nil => simp [listCharLe] at h2
      | cons w ws =>
        by_cases huv : u.toNat = v.toNat
        · by_cases hvw : v.toNat = w.toNat
          · rw [listCharLe, if_pos huv] at h1
            rw [listCharLe, if_pos hvw] at h2
            have := ih vs ws h1 h2
            simp [listCharLe, huv.trans hvw, this]
          · rw [listCharLe, if_neg hvw] at h2
            have hlt : v.toNat < w.toNat := by simpa using h2
            have h3 : ¬ u.toNat = w.toNat := by omega
            have h4 : u.toNat < w.toNat := by omega
            simp [listCharLe, h3, h4]
        · rw [listCharLe, if_neg huv] at h1
          have hlt1 : u.toNat < v.toNat := by simpa using h1
          by_cases hvw : v.toNat = w.toNat
          · have h3 : ¬ u.toNat = w.toNat := by omega
            have h4 : u.toNat < w.toNat := by omega
            simp [listCharLe, h3, h4]
          · rw [listCharLe, if_neg hvw] at h2
            have hlt2 : v.toNat < w.toNat := by simpa using h2
            have h3 : ¬ u.toNat = w.toNat := by omega
            have h4 : u.toNat < w.toNat := by omega
            simp [listCharLe, h3, h4]

instance : IsAntisymm String pyLe := by
  constructor
  intro a b h1 h2
  have hd : a.data = b.data := by
    revert h1 h2
    show listCharLe a.data b.data = true → listCharLe b.data a.data = true →
      a.data = b.data
    generalize a.data = x
    generalize b.data = y
    induction x generalizing y with
    | nil =>
      intro _ h2
      cases y with
      | nil => rfl
      | cons d ds => simp [listCharLe] at h2
    | cons c cs ih =>
      intro h1 h2
      cases y with
      | nil => simp [listCharLe] at h1
      | cons d ds =>
        by_cases h : c.toNat = d.toNat
        · rw [listCharLe, if_pos h] at h1
          rw [listCharLe, if_pos (h.symm)] at h2
          have heq : c = d := by
            apply Char.ext
            have : c.val.toBitVec = d.val.toBitVec := BitVec.eq_of_toNat_eq h
            exact congrArg UInt32.mk this
          rw [heq, ih ds h1 h2]
        · rw [listCharLe, if_neg h] at h1
          have h2' : ¬ d.toNat = c.toNat := fun e => h e.symm
          rw [listCharLe, if_neg h2'] at h2
          have hlt1 : c.toNat < d.toNat := by simpa using h1
          have hlt2 : d.toNat < c.toNat := by simpa using h2
          omega
  cases a
  cases b
  exact congrArg String.mk hd

/-- Model of Python `sorted` on strings: a stable sort by the
lexicographic order on code points. -/
def pySortStr (l : List String) : List String :=
  List.insertionSort pyLe l

/-- The lines appended for one file of the Key Files loop (lines 94-97):
a line-count entry for names ending in `.ts` that are keys of
`line_counts`, a generic entry for names ending in `.ts`, `.js`, `.json`
or `.md`, and nothing otherwise. -/
def keyFileLine (info : FolderInfo) (f : String) : List String :=
  if pyEndsWith f (".ts") && (info.line_counts.lookup f).isSome then
    [countLineFor f ((info.line_counts.lookup f).getD 0)]
  else if pyEndsWith f (".ts") || pyEndsWith f (".js")
      || pyEndsWith f (".json") || pyEndsWith f (".md") then
    [genericLineFor f]
  else []

/-- The Key Files section (lines 91-98), emitted only when the folder has
files, iterating over `sorted(folder_info['files'])`. -/
def keyFilesSection (info : FolderInfo) : List String :=
  if info.files = [] then []
  else ("## 📄 Key Files") :: ((pySortStr info.files).map (keyFileLine info)).flatten ++ [""]

/-- One Subfolders entry (line 104). -/
def subfolderLineFor (d : String) : String :=
  ("- `") ++ d ++ ("/` - [Purpose]")

/-- The Subfolders section (lines 101-105), emitted only when subfolders
were listed, iterating over `sorted(folder_info['subfolders'])`. -/
def subfoldersSection (info : FolderInfo) : List String :=
  if info.subfolders = [] then []
  else ("## 📁 Subfolders") :: (pySortStr info.subfolders).map subfolderLineFor ++ [""]

/-- The four fixed sections appended at lines 108-128. -/
def staticSections : List String :=
  ["## ⚠️ Important Constraints",
   "- [Add important technical constraints or requirements]",
   "- [Add rate limits, API constraints, etc.]",
   "",
   "## 🔌 Public Interfaces",
   "- `[ClassNameOrFunction]` - [Purpose]",
   "",
   "## 🔄 Integration Points",
   "- **Connected to**: [Other modules this interacts with]",
   "- **Used by**: [Who consumes this module]",
   "",
   "## 🚨 Common Issues & Fixes",
   "1. **[Common error]**: [Solution]",
   "2. **[Performance issue]**: [Optimization]",
   ""]

/-- The link line emitted at line 134 when a parent summary is present. -/
def parentLinkLine (parentName : String) : String :=
  ("- See `../README.md` for ") ++ parentName ++ (" overview")

/-- The Related Documentation section (lines 131-134): the header is
appended unconditionally, the link line only under `if parent_info`. -/
def relatedDocSection (parent : Option String) : List String :=
  ("## 📚 Related Documentation") ::
    (match parent with
     | some pn => [parentLinkLine pn]
     | none => [])

/-- The full `lines` list built by `generate_readme_content`
(lines 83-139), in source order.  The `project_name` computed at
lines 56-60 is dead code (never used) and is omitted. -/
def readmeLines (info : FolderInfo) (parent : Option String) : List String :=
  [titleLine info.name,
   "",
   "## 🎯 What This Folder Does",
   "[Brief description of what this module does within Talon AI Assistant]",
   ""]
  ++ keyFilesSection info
  ++ subfoldersSection info
  ++ staticSections
  ++ relatedDocSection parent
  ++ ["", "---",
      "*This README was auto-generated. Please update with specific details about this module.*"]

/-- `generate_readme_content` (lines 53-141): `'\n'.join(lines)`.  The
optional parent dict `{'name': ...}` is modelled by its only field. -/
def generate_readme_content (info : FolderInfo) (parent : Option String) : String :=
  joinLines (readmeLines info parent)

/-! ## Driver (`main`, lines 143-196)

The filesystem under the walk root is a finite list of directories, each
a path paired with its immediate regular files; a file is a name together
with `some` readable content or `none` for an unreadable one.  Paths are
component lists relative to `project_root`, so the walk root `src/` has
path `["src"]`; the code's comparisons of absolute paths
(`folder_path.parent != src_path`, `!= project_root`) and its depth key
`len(p.parts)` are invariant under dropping the common `project_root`
prefix.

The list's order models the yield order of `os.walk(src_path)`
(line 155): top-down depth-first, every directory under the root exactly
once.  `main` never edits the `dirs` list `os.walk` hands it — the only
pruning mechanism `os.walk` has — so no name is skipped by the walk.  No
claim depends on the interleaving of the walk beyond this.

Writes performed by a run are kept as an ordered overlay list of
`(path, content)` pairs instead of mutating the filesystem; a folder then
has a `README.md` exactly when its file list holds one or when the
overlay holds an entry for its path, which is how `readme_path.exists()`
behaves during a run whose writes all succeed. -/

/-- One directory as the walk yields it: its path and its immediate
regular files. -/
abbrev DirEntry := List String × List (String × Option String)

/-- The filesystem under `project_root`: every directory in
`os.walk(src_path)` yield order, with its immediate regular files. -/
structure FileSys where
  dirs : List DirEntry
deriving Repr, DecidableEq

/-- `README.md` is among the file names of a directory's file list. -/
def hasReadmeFiles (fls : List (String × Option String)) : Bool :=
  fls.any (fun f => f.1 == ("README.md"))

/-- The names of the immediate subdirectories of `p`, in walk order:
exactly the directories whose path is `p` plus one component.  This is
what `folder_path.iterdir()` yields as directories at line 48. -/
def subdirNamesOf (fs : FileSys) (p : List String) : List String :=
  fs.dirs.filterMap (fun e =>
    if e.1 ≠ ([] : List String) ∧ e.1.dropLast = p then some (e.1.getLastD (""))
    else none)

/-- Discovery phase (lines 154-165): every walked directory is queued
unless `README.md` already exists there — in its own file list or in the
overlay `w` of earlier successful writes. -/
def discover (fs : FileSys) (w : List (List String × String)) : List DirEntry :=
  fs.dirs.filter (fun e => !(hasReadmeFiles e.2 || (w.lookup e.1).isSome))

/-- The sort key of line 170: comparison of `len(p.parts)`. -/
def depthLe (a b : DirEntry) : Prop :=
  a.1.length ≤ b.1.length

instance : DecidableRel depthLe := fun a b => Nat.decLe a.1.length b.1.length

instance : IsTotal DirEntry depthLe :=
  ⟨fun a b => Nat.le_total a.1.length b.1.length⟩

instance : IsTrans DirEntry depthLe :=
  ⟨fun _ _ _ => Nat.le_trans⟩

/-- `sorted(folders_to_process, key=lambda p: len(p.parts))` (line 170):
Python `sorted` is a stable sort, modelled by insertion sort. -/
def orderQueue (q : List DirEntry) : List DirEntry :=
  List.insertionSort depthLe q

/-- Whether, at discovery time, the filesystem has a `README.md` in the
directory at path `p` (the parent check against the pre-run state). -/
def origReadme (fs : FileSys) (p : List String) : Bool :=
  fs.dirs.any (fun e => e.1 == p && hasReadmeFiles e.2)

/-- What `folder_path.iterdir()` yields as regular files when `item` is
processed: its files at discovery plus any `README.md` present in the
overlay of earlier writes (never triggered for a queued folder). -/
def stepFiles (w : List (List String × String))
    (outs : List (List String × String)) (item : DirEntry) :
    List (String × Option String) :=
  item.2 ++
    (match (w ++ outs).lookup item.1 with
     | some c => [(("README.md"), some c)]
     | none => [])

/-- The `parent_info` computed at lines 174-178 when `item` is processed:
`{'name': parent.name}` when the parent is neither `src_path` nor
`project_root` and `parent / 'README.md'` exists at that moment. -/
def stepParent (fs : FileSys) (w : List (List String × String))
    (outs : List (List String × String)) (item : DirEntry) : Option String :=
  let par := item.1.dropLast
  if par ≠ (["src"] : List String) ∧ par ≠ ([] : List String) then
    (if origReadme fs par || ((w ++ outs).lookup par).isSome then
      some (par.getLastD (""))
    else none)
  else none

/-- The `FolderAnalysis` computed at line 171 when `item` is processed. -/
def stepInfo (fs : FileSys) (w : List (List String × String))
    (outs : List (List String × String)) (item : DirEntry) : FolderInfo :=
  analyze_folder (item.1.getLastD ("")) (stepFiles w outs item)
    (subdirNamesOf fs item.1)

/-- The document written for `item` at line 186. -/
def stepDoc (fs : FileSys) (w : List (List String × String))
    (outs : List (List String × String)) (item : DirEntry) : String :=
  generate_readme_content (stepInfo fs w outs item) (stepParent fs w outs item)

/-- One iteration of the generation loop (lines 170-189) for the queued
folder `item`, given the filesystem `fs`, the overlay `w` of `README.md`
files already present before the run started, and the writes `outs` made
earlier in this run: analyze (line 171), decide the parent link
(lines 174-178), render (line 181), write (line 186); writes are
modelled as always succeeding. -/
def genStep (fs : FileSys) (w : List (List String × String))
    (outs : List (List String × String)) (item : DirEntry) :
    List (List String × String) :=
  outs ++ [(item.1, stepDoc fs w outs item)]

/-- Generation phase: fold the generation step over the depth-ordered
queue. -/
def runQueue (fs : FileSys) (w : List (List String × String))
    (outs : List (List String × String)) (q : List DirEntry) :
    List (List String × String) :=
  q.foldl (genStep fs w) outs

/-- One full run of the tool on the filesystem `fs` rooted at `src/`,
with `w` the overlay of `README.md` files created by earlier runs: the
ordered list of `(folder path, content)` writes the run performs. -/
def runTool (fs : FileSys) (w : List (List String × String)) :
    List (List String × String) :=
  runQueue fs w [] (orderQueue (discover fs w))

/-- All walked paths are distinct — true of any real directory tree
(a path names at most one directory), and decidable on concrete
filesystems. -/
def wfPaths (fs : FileSys) : Prop :=
  (fs.dirs.map Prod.fst).Nodup

instance (fs : FileSys) : Decidable (wfPaths fs) :=
  inferInstanceAs (Decidable (List.Nodup _))

/-! ## Generation loop with fallible directory enumeration

`analyze_folder` starts with `folder_path.iterdir()` and `main` calls it
at line 171, *outside* the `try` of lines 185-188 (which guards only the
write).  To reason about a directory that is unreadable when the
generation phase reaches it, the loop is re-modelled with each queued
folder carrying either its enumerated entries or the enumeration error;
an error is not caught anywhere in `main`, so it aborts the loop and
escapes the driver, keeping only the writes made before it. -/

/-- A queued folder for the fallible loop: its name, and either the
enumeration result (files and subdirectory names) or the `OSError`
message raised by `iterdir`. -/
abbrev FallibleItem : Type :=
  String × Except String (List (String × Option String) × List String)

/-- The generation loop of lines 170-189 with fallible enumeration:
returns the documents written so far and, if a folder's enumeration
raised, the uncaught exception that escapes `main`. -/
def generationPhase : List FallibleItem → List String → List String × Option String
  | [], acc => (acc, none)
  | (_, Except.error e) :: _, acc => (acc, some e)
  | (nm, Except.ok (fs, ds)) :: rest, acc =>
    generationPhase rest
      (acc ++ [generate_readme_content (analyze_folder nm fs ds) none])

/-! ## Observers on rendered documents -/

/-- The first line of a document: its characters up to the first
newline. -/
def firstLine (s : String) : String :=
  ⟨s.data.takeWhile (fun c => c != '\n')⟩

/-- Split a character list at every `'\n'` (the inverse of
`joinLines`). -/
def splitNl : List Char → List (List Char)
  | [] => [[]]
  | c :: rest =>
    let r := splitNl rest
    if c = '\n' then [] :: r
    else
      match r with
      | [] => [[c]]
      | h :: t => (c :: h) :: t

/-- The lines of a rendered document. -/
def linesOf (s : String) : List String :=
  (splitNl s.data).map (fun l => (⟨l⟩ : String))

/-- The third character of a string, if any — enough to tell a
Related-Documentation link line from every other rendered line. -/
def thirdChar (s : String) : Option Char :=
  (s.data.drop 2).head?

/-- The spec-side reading of "a file containing exactly `k`
newline-terminated lines": the content is a concatenation of `k` chunks,
each a terminator-free piece followed by `'\n'`. -/
def NLTerminatedLines (c : String) (k : Nat) : Prop :=
  ∃ parts : List (List Char), parts.length = k ∧
    (∀ q ∈ parts, ('\n') ∉ q ∧ ('\x0d') ∉ q) ∧
    c.data = (parts.map (fun q => q ++ [('\n')])).flatten

/-! ## Generic list, string and association-list lemmas -/

theorem data_append (a b : String) : (a ++ b).data = a.data ++ b.data := rfl

theorem str_mk_data (s : String) : (⟨s.data⟩ : String) = s := rfl

theorem take_len_append {α : Type _} (a b : List α) : (a ++ b).take a.length = a := by
  induction a with
  | nil => rfl
  | cons x xs ih => simp [ih]

theorem take_append_le {α : Type _} (k : Nat) (a b : List α) (h : k ≤ a.length) :
    (a ++ b).take k = a.take k := by
  induction a generalizing k with
  | nil =>
    have hk : k = 0 := by simpa using h
    simp [hk]
  | cons x xs ih =>
    cases k with
    | zero => rfl
    | succ k => simp [List.take_succ_cons, ih k (by simpa using h)]

theorem lookup_isSome_iff {α β : Type _} [BEq α] [LawfulBEq α]
    (l : List (α × β)) (k : α) :
    (l.lookup k).isSome = true ↔ k ∈ l.map Prod.fst := by
  induction l with
  | nil => simp [List.lookup]
  | cons e l ih =>
    obtain ⟨k', v⟩ := e
    by_cases h : k = k'
    · subst h
      simp [List.lookup]
    · have hb : (k == k') = false := beq_false_of_ne h
      simp [List.lookup, hb, ih, h]

theorem lookup_eq_none_of {α β : Type _} [BEq α] [LawfulBEq α]
    {l : List (α × β)} {k : α} (h : k ∉ l.map Prod.fst) : l.lookup k = none := by
  cases hl : l.lookup k with
  | none => rfl
  | some v =>
    exact absurd ((lookup_isSome_iff l k).mp (by simp [hl])) h

theorem mem_of_lookup {α β : Type _} [BEq α] [LawfulBEq α]
    {l : List (α × β)} {k : α} {v : β} (h : l.lookup k = some v) : (k, v) ∈ l := by
  induction l with
  | nil => simp [List.lookup] at h
  | cons e l ih =>
    obtain ⟨k', v'⟩ := e
    by_cases hk : k = k'
    · subst hk
      simp [List.lookup] at h
      simp [h]
    · have hb : (k == k') = false := beq_false_of_ne hk
      simp [List.lookup, hb] at h
      exact List.mem_cons_of_mem _ (ih h)

theorem lookup_of_mem_nodup {α β : Type _} [BEq α] [LawfulBEq α]
    {l : List (α × β)} {k : α} {v : β}
    (hn : (l.map Prod.fst).Nodup) (h : (k, v) ∈ l) : l.lookup k = some v := by
  induction l with
  | nil => simp at h
  | cons e l ih =>
    obtain ⟨k', v'⟩ := e
    rcases List.mem_cons.mp h with he | hmem
    · rw [Prod.mk.injEq] at he
      obtain ⟨h1, h2⟩ := he
      subst h1; subst h2
      simp [List.lookup]
    · have hk : k ≠ k' := by
        intro he
        subst he
        have : k ∈ l.map Prod.fst := List.mem_map_of_mem Prod.fst hmem
        exact (List.nodup_cons.mp hn).1 this
      have hb : (k == k') = false := beq_false_of_ne hk
      simp [List.lookup, hb]
      exact ih (List.nodup_cons.mp hn).2 hmem

theorem eq_of_mem_nodup_fst {α β : Type _} [BEq α] [LawfulBEq α]
    {l : List (α × β)} {k : α} {a b : β}
    (hn : (l.map Prod.fst).Nodup) (h1 : (k, a) ∈ l) (h2 : (k, b) ∈ l) : a = b := by
  have e1 := lookup_of_mem_nodup hn h1
  have e2 := lookup_of_mem_nodup hn h2
  rw [e1] at e2
  exact (Option.some.injEq _ _ ▸ e2).symm ▸ rfl

theorem perm_lookup_nodup {α β : Type _} [BEq α] [LawfulBEq α]
    {l₁ l₂ : List (α × β)} (hp : l₁.Perm l₂)
    (hn : (l₁.map Prod.fst).Nodup) (k : α) : l₁.lookup k = l₂.lookup k := by
  cases hl : l₁.lookup k with
  | none =>
    refine (lookup_eq_none_of ?_).symm
    intro hmem
    have : k ∈ l₁.map Prod.fst := ((hp.map Prod.fst).mem_iff).mpr hmem
    have : (l₁.lookup k).isSome = true := (lookup_isSome_iff l₁ k).mpr this
    simp [hl] at this
  | some v =>
    have hm : (k, v) ∈ l₂ := hp.subset (mem_of_lookup hl)
    exact (lookup_of_mem_nodup ((hp.map Prod.fst).nodup hn) hm).symm

theorem takeWhile_all {α : Type _} {p : α → Bool} {xs : List α}
    (h : ∀ x ∈ xs, p x = true) : xs.takeWhile p = xs := by
  induction xs with
  | nil => rfl
  | cons x xs ih =>
    simp [List.takeWhile_cons, h x (List.mem_cons_self x xs),
      ih (fun y hy => h y (List.mem_cons_of_mem x hy))]

theorem takeWhile_append_stop {α : Type _} {p : α → Bool} {xs ys : List α} {y : α}
    (h : ∀ x ∈ xs, p x = true) (hy : p y = false) :
    (xs ++ y :: ys).takeWhile p = xs := by
  induction xs with
  | nil => simp [List.takeWhile_cons, hy]
  | cons x xs ih =>
    simp [List.takeWhile_cons, h x (List.mem_cons_self x xs),
      ih (fun z hz => h z (List.mem_cons_of_mem x hz))]

/-! ## Character-level lemmas -/

theorem char_toNat_ne {a b : Char} (h : a.toNat ≠ b.toNat) : a ≠ b :=
  fun he => h (he ▸ rfl)

theorem toNat_ofNat_valid {m : Nat} (h : m < 55296) : (Char.ofNat m).toNat = m := by
  rw [Char.ofNat, dif_pos (Or.inl h)]
  simp [Char.ofNatAux, Char.toNat, UInt32.toNat, BitVec.toNat_ofNatLt]

theorem toUpper_ne_nl {c : Char} (hc : c ≠ ('\n')) : c.toUpper ≠ ('\n') := by
  unfold Char.toUpper
  by_cases hr : c.toNat ≥ 97 ∧ c.toNat ≤ 122
  · rw [if_pos hr]
    apply char_toNat_ne
    rw [toNat_ofNat_valid (by omega)]
    have hnl : ('\n').toNat = 10 := rfl
    omega
  · rw [if_neg hr]
    exact hc

theorem toLower_ne_nl {c : Char} (hc : c ≠ ('\n')) : c.toLower ≠ ('\n') := by
  unfold Char.toLower
  by_cases hr : c.toNat ≥ 65 ∧ c.toNat ≤ 90
  · rw [if_pos hr]
    apply char_toNat_ne
    rw [toNat_ofNat_valid (by omega)]
    have hnl : ('\n').toNat = 10 := rfl
    omega
  · rw [if_neg hr]
    exact hc

/-! ## Newline-freeness of rendered fragments -/

theorem pyTitleAux_no_nl {l : List Char} (b : Bool) (h : ('\n') ∉ l) :
    ('\n') ∉ pyTitleAux l b := by
  induction l generalizing b with
  | nil => simp [pyTitleAux]
  | cons c cs ih =>
    have hc : c ≠ ('\n') := fun he => h (he ▸ List.mem_cons_self c cs)
    have hcs : ('\n') ∉ cs := fun hm => h (List.mem_cons_of_mem c hm)
    simp only [pyTitleAux, List.mem_cons, not_or]
    refine ⟨?_, ih c.isAlpha hcs⟩
    intro he
    by_cases ha : c.isAlpha
    · rw [if_pos ha] at he
      by_cases hb : b = true
      · rw [hb, if_pos rfl] at he
        exact toLower_ne_nl hc he.symm
      · rw [if_neg (by simpa using hb)] at he
        exact toUpper_ne_nl hc he.symm
    · rw [if_neg ha] at he
      exact hc he.symm

theorem pyTitle_no_nl {s : String} (h : ('\n') ∉ s.data) :
    ('\n') ∉ (pyTitle s).data :=
  pyTitleAux_no_nl false h

theorem digitChar_ne_nl (n : Nat) : digitChar n ≠ ('\n') := by
  unfold digitChar
  split <;> decide

theorem natStrAux_no_nl (fuel n : Nat) (acc : List Char) (h : ('\n') ∉ acc) :
    ('\n') ∉ natStrAux fuel n acc := by
  induction fuel generalizing n acc with
  | zero => exact h
  | succ fuel ih =>
    simp only [natStrAux]
    by_cases hn : n < 10
    · rw [if_pos hn]
      simp only [List.mem_cons, not_or]
      exact ⟨fun he => digitChar_ne_nl n he.symm, h⟩
    · rw [if_neg hn]
      refine ih _ _ ?_
      simp only [List.mem_cons, not_or]
      exact ⟨fun he => digitChar_ne_nl (n % 10) he.symm, h⟩

theorem natStr_no_nl (n : Nat) : ('\n') ∉ (natStr n).data :=
  natStrAux_no_nl (n + 1) n [] (by simp)

theorem purposeOf_no_nl {name : String} (h : ('\n') ∉ name.data) :
    ('\n') ∉ (purposeOf name).data := by
  unfold purposeOf
  cases hl : purposeList.lookup name with
  | none =>
    rw [data_append, List.mem_append, not_or]
    exact ⟨pyTitle_no_nl h, by decide⟩
  | some p =>
    have hall : ∀ e ∈ purposeList, ('\n') ∉ e.2.data := by decide
    exact hall _ (mem_of_lookup hl)

theorem titleLine_no_nl {name : String} (h : ('\n') ∉ name.data) :
    ('\n') ∉ (titleLine name).data := by
  unfold titleLine
  rw [data_append, data_append, data_append]
  simp only [List.mem_append, not_or]
  refine ⟨⟨⟨by decide, h⟩, by decide⟩, purposeOf_no_nl h⟩

/-! ## `pyEndsWith` and `pySuffix` -/

theorem pyEndsWith_iff {s t : String} :
    pyEndsWith s t = true ↔ ∃ pre, s.data = pre ++ t.data := by
  unfold pyEndsWith
  rw [beq_iff_eq]
  constructor
  · intro h
    refine ⟨(s.data.reverse.drop t.data.length).reverse, ?_⟩
    conv_lhs => rw [← List.reverse_reverse s.data,
      ← List.take_append_drop t.data.length s.data.reverse]
    rw [List.reverse_append, h, List.reverse_reverse]
  · rintro ⟨pre, hp⟩
    rw [hp, List.reverse_append]
    have hl : t.data.length = t.data.reverse.length := (List.length_reverse _).symm
    rw [hl, take_len_append]

theorem pySuffix_decomp {name sfx : String} (h : pySuffix name = sfx)
    (hne : sfx ≠ "") : ∃ pre, name.data = pre ++ sfx.data := by
  unfold pySuffix at h
  cases hidx : lastDotIdx name.data with
  | none =>
    rw [hidx] at h
    exact absurd h.symm hne
  | some i =>
    rw [hidx] at h
    dsimp only at h
    by_cases hc : 0 < i ∧ i < name.data.length - 1
    · rw [if_pos hc] at h
      have hdata : name.data.drop i = sfx.data := congrArg String.data h
      exact ⟨name.data.take i, by rw [← hdata, List.take_append_drop]⟩
    · rw [if_neg hc] at h
      exact absurd h.symm hne

theorem pyEndsWith_of_suffix {f u : String} (hf : pySuffix f = u) (hu : u ≠ "") :
    pyEndsWith f u = true := by
  obtain ⟨pre, hp⟩ := pySuffix_decomp hf hu
  exact pyEndsWith_iff.mpr ⟨pre, hp⟩

theorem pyEndsWith_ne_of_suffix {f u t : String} (hf : pySuffix f = u) (hu : u ≠ "")
    (h3u : 3 ≤ u.data.length) (h3t : 3 ≤ t.data.length)
    (hne : u.data.reverse.take 3 ≠ t.data.reverse.take 3) :
    pyEndsWith f t = false := by
  cases hEW : pyEndsWith f t with
  | false => rfl
  | true =>
    exfalso
    obtain ⟨q, hq⟩ := pyEndsWith_iff.mp hEW
    obtain ⟨pre, hp⟩ := pySuffix_decomp hf hu
    have hrev : u.data.reverse ++ pre.reverse = t.data.reverse ++ q.reverse := by
      rw [← List.reverse_append, ← List.reverse_append, ← hp, ← hq]
    have h3u' : 3 ≤ u.data.reverse.length := by rwa [List.length_reverse]
    have h3t' : 3 ≤ t.data.reverse.length := by rwa [List.length_reverse]
    have := congrArg (List.take 3) hrev
    rw [take_append_le 3 _ _ h3u', take_append_le 3 _ _ h3t'] at this
    exact hne this

/-! ## Lines of a joined document -/

theorem joinLines_cons_cons (a b : String) (ls : List String) :
    joinLines (a :: b :: ls) = a ++ "\n" ++ joinLines (b :: ls) := rfl

theorem firstLine_of_no_nl {a : String} (h : ('\n') ∉ a.data) : firstLine a = a := by
  unfold firstLine
  rw [takeWhile_all (fun c hc => by
    have : c ≠ ('\n') := fun he => h (he ▸ hc)
    simpa using this)]

theorem firstLine_joinLines {a : String} {ls : List String} (h : ('\n') ∉ a.data) :
    firstLine (joinLines (a :: ls)) = a := by
  cases ls with
  | nil => exact firstLine_of_no_nl h
  | cons b ls =>
    rw [joinLines_cons_cons]
    unfold firstLine
    rw [data_append, data_append]
    have hd : (("\n") : String).data = [('\n')] := rfl
    rw [hd, List.append_assoc, List.singleton_append]
    rw [takeWhile_append_stop (fun c hc => by
      have : c ≠ ('\n') := fun he => h (he ▸ hc)
      simpa using this) (by simp)]

theorem splitNl_no_nl {l : List Char} (h : ('\n') ∉ l) : splitNl l = [l] := by
  induction l with
  | nil => rfl
  | cons c cs ih =>
    have hc : c ≠ ('\n') := fun he => h (he ▸ List.mem_cons_self c cs)
    have hcs := ih (fun hm => h (List.mem_cons_of_mem c hm))
    simp [splitNl, hcs, if_neg hc]

theorem splitNl_append_nl {xs ys : List Char} (h : ('\n') ∉ xs) :
    splitNl (xs ++ ('\n') :: ys) = xs :: splitNl ys := by
  induction xs with
  | nil => simp [splitNl]
  | cons c cs ih =>
    have hc : c ≠ ('\n') := fun he => h (he ▸ List.mem_cons_self c cs)
    have hcs := ih (fun hm => h (List.mem_cons_of_mem c hm))
    rw [List.cons_append]
    simp [splitNl, hcs, if_neg hc]

theorem linesOf_joinLines {L : List String} (hne : L ≠ [])
    (h : ∀ l ∈ L, ('\n') ∉ l.data) : linesOf (joinLines L) = L := by
  induction L with
  | nil => exact absurd rfl hne
  | cons a ls ih =>
    cases ls with
    | nil =>
      show linesOf (joinLines [a]) = [a]
      unfold linesOf
      have : joinLines [a] = a := rfl
      rw [this, splitNl_no_nl (h a (List.mem_cons_self a []))]
      simp [str_mk_data]
    | cons b ls2 =>
      rw [joinLines_cons_cons]
      unfold linesOf
      rw [data_append, data_append]
      have hd : (("\n") : String).data = [('\n')] := rfl
      rw [hd, List.append_assoc, List.singleton_append]
      rw [splitNl_append_nl (h a (List.mem_cons_self a _))]
      have ihr := ih (by simp) (fun l hl => h l (List.mem_cons_of_mem a hl))
      unfold linesOf at ihr
      simp only [List.map_cons, str_mk_data]
      rw [ihr]

/-! ## Line counting of newline-terminated content -/

theorem pyLineCount_chunk {q rest : List Char} (hq1 : ('\n') ∉ q)
    (hq2 : ('\x0d') ∉ q) :
    pyLineCount (q ++ ('\n') :: rest) = 1 + pyLineCount rest := by
  induction q with
  | nil => simp [pyLineCount]
  | cons c cs ih =>
    have hc1 : c ≠ ('\n') := fun he => hq1 (he ▸ List.mem_cons_self c cs)
    have hc2 : c ≠ ('\x0d') := fun he => hq2 (he ▸ List.mem_cons_self c cs)
    have ihr := ih (fun hm => hq1 (List.mem_cons_of_mem c hm))
      (fun hm => hq2 (List.mem_cons_of_mem c hm))
    rw [List.cons_append]
    rw [pyLineCount.eq_def]
    split
    · simp_all
    · simp_all
    · simp_all
    · simp_all
    · rename_i heq
      exfalso
      have := congrArg List.length heq
      simp at this
    · rename_i heq
      have h2 := (List.cons.injEq _ _ _ _).mp heq
      rw [← h2.2]
      exact ihr

theorem pyLineCount_terminated {parts : List (List Char)}
    (h : ∀ q ∈ parts, ('\n') ∉ q ∧ ('\x0d') ∉ q) :
    pyLineCount ((parts.map (fun q => q ++ [('\n')])).flatten) = parts.length := by
  induction parts with
  | nil => rfl
  | cons q ps ih =>
    have hq := h q (List.mem_cons_self q ps)
    have ihr := ih (fun x hx => h x (List.mem_cons_of_mem q hx))
    simp only [List.map_cons, List.flatten_cons]
    rw [List.append_assoc, List.singleton_append, pyLineCount_chunk hq.1 hq.2, ihr]
    simp [Nat.add_comm]

/-! ## Characterization of `analyze_folder` -/

/-- The `.ts`/`.tsx` test of line 31, as the entry recorded into
`line_counts`. -/
def lcEntry (f : String × Option String) : Option (String × Nat) :=
  if pySuffix f.1 = (".ts") ∨ pySuffix f.1 = (".tsx") then
    some (f.1, recordedCount f.2)
  else none

theorem analyzeFile_name (i : FolderInfo) (f : String × Option String) :
    (analyzeFile i f).name = i.name := by
  unfold analyzeFile
  repeat' split
  all_goals rfl

theorem analyzeFile_files (i : FolderInfo) (f : String × Option String) :
    (analyzeFile i f).files = i.files ++ [f.1] := by
  unfold analyzeFile
  repeat' split
  all_goals rfl

theorem analyzeFile_subfolders (i : FolderInfo) (f : String × Option String) :
    (analyzeFile i f).subfolders = i.subfolders := by
  unfold analyzeFile
  repeat' split
  all_goals rfl

theorem analyzeFile_line_counts (i : FolderInfo) (f : String × Option String) :
    (analyzeFile i f).line_counts = i.line_counts ++ (lcEntry f).toList := by
  unfold analyzeFile lcEntry
  by_cases h : pySuffix f.1 = (".ts") ∨ pySuffix f.1 = (".tsx")
  · simp [h]
  · simp only [if_neg h, Option.toList_none, List.append_nil]
    repeat' split
    all_goals rfl

theorem analyzeDir_name (i : FolderInfo) (d : String) :
    (analyzeDir i d).name = i.name := by
  unfold analyzeDir
  split
  all_goals rfl

theorem analyzeDir_files (i : FolderInfo) (d : String) :
    (analyzeDir i d).files = i.files := by
  unfold analyzeDir
  split
  all_goals rfl

theorem analyzeDir_line_counts (i : FolderInfo) (d : String) :
    (analyzeDir i d).line_counts = i.line_counts := by
  unfold analyzeDir
  split
  all_goals rfl

/-- The exclusion test of line 48, as a Boolean on one name. -/
def keptDir (d : String) : Bool :=
  !(d == ("node_modules") || d == (".git") || d == ("__pycache__"))

theorem analyzeDir_subfolders (i : FolderInfo) (d : String) :
    (analyzeDir i d).subfolders = i.subfolders ++ (if keptDir d then [d] else []) := by
  unfold analyzeDir keptDir
  by_cases h : d = ("node_modules") ∨ d = (".git") ∨ d = ("__pycache__")
  · rw [if_pos h]
    have hb : (d == ("node_modules") || d == (".git") || d == ("__pycache__")) = true := by
      rcases h with h | h | h <;> simp [h]
    simp [hb]
  · rw [if_neg h]
    have hb : (d == ("node_modules") || d == (".git") || d == ("__pycache__")) = false := by
      push_neg at h
      simp [beq_false_of_ne h.1, beq_false_of_ne h.2.1, beq_false_of_ne h.2.2]
    simp [hb]

theorem foldl_analyzeFile_name (files : List (String × Option String)) (i : FolderInfo) :
    (files.foldl analyzeFile i).name = i.name := by
  induction files generalizing i with
  | nil => rfl
  | cons f fs ih => rw [List.foldl_cons, ih, analyzeFile_name]

theorem foldl_analyzeFile_files (files : List (String × Option String)) (i : FolderInfo) :
    (files.foldl analyzeFile i).files = i.files ++ files.map Prod.fst := by
  induction files generalizing i with
  | nil => simp
  | cons f fs ih =>
    rw [List.foldl_cons, ih, analyzeFile_files]
    simp

theorem foldl_analyzeFile_subfolders (files : List (String × Option String)) (i : FolderInfo) :
    (files.foldl analyzeFile i).subfolders = i.subfolders := by
  induction files generalizing i with
  | nil => rfl
  | cons f fs ih => rw [List.foldl_cons, ih, analyzeFile_subfolders]

theorem foldl_analyzeFile_line_counts (files : List (String × Option String)) (i : FolderInfo) :
    (files.foldl analyzeFile i).line_counts = i.line_counts ++ files.filterMap lcEntry := by
  induction files generalizing i with
  | nil => simp
  | cons f fs ih =>
    rw [List.foldl_cons, ih, analyzeFile_line_counts, List.filterMap_cons]
    cases hf : lcEntry f <;> simp [hf]

theorem foldl_analyzeDir_name (subs : List String) (i : FolderInfo) :
    (subs.foldl analyzeDir i).name = i.name := by
  induction subs generalizing i with
  | nil => rfl
  | cons d ds ih => rw [List.foldl_cons, ih, analyzeDir_name]

theorem foldl_analyzeDir_files (subs : List String) (i : FolderInfo) :
    (subs.foldl analyzeDir i).files = i.files := by
  induction subs generalizing i with
  | nil => rfl
  | cons d ds ih => rw [List.foldl_cons, ih, analyzeDir_files]

theorem foldl_analyzeDir_line_counts (subs : List String) (i : FolderInfo) :
    (subs.foldl analyzeDir i).line_counts = i.line_counts := by
  induction subs generalizing i with
  | nil => rfl
  | cons d ds ih => rw [List.foldl_cons, ih, analyzeDir_line_counts]

theorem foldl_analyzeDir_subfolders (subs : List String) (i : FolderInfo) :
    (subs.foldl analyzeDir i).subfolders = i.subfolders ++ subs.filter keptDir := by
  induction subs generalizing i with
  | nil => simp
  | cons d ds ih =>
    rw [List.foldl_cons, ih, analyzeDir_subfolders, List.filter_cons]
    cases hd : keptDir d <;> simp [hd]

theorem analyze_name (name : String) (files : List (String × Option String))
    (subs : List String) : (analyze_folder name files subs).name = name := by
  unfold analyze_folder
  rw [foldl_analyzeDir_name, foldl_analyzeFile_name]
  rfl

theorem analyze_files (name : String) (files : List (String × Option String))
    (subs : List String) :
    (analyze_folder name files subs).files = files.map Prod.fst := by
  unfold analyze_folder
  rw [foldl_analyzeDir_files, foldl_analyzeFile_files]
  rfl

theorem analyze_subfolders (name : String) (files : List (String × Option String))
    (subs : List String) :
    (analyze_folder name files subs).subfolders = subs.filter keptDir := by
  unfold analyze_folder
  rw [foldl_analyzeDir_subfolders, foldl_analyzeFile_subfolders]
  rfl

theorem analyze_line_counts (name : String) (files : List (String × Option String))
    (subs : List String) :
    (analyze_folder name files subs).line_counts = files.filterMap lcEntry := by
  unfold analyze_folder
  rw [foldl_analyzeDir_line_counts, foldl_analyzeFile_line_counts]
  rfl

theorem analyze_line_counts_keys (name : String) (files : List (String × Option String))
    (subs : List String) :
    (analyze_folder name files subs).line_counts.map Prod.fst =
      (files.map Prod.fst).filter
        (fun f => pySuffix f == (".ts") || pySuffix f == (".tsx")) := by
  rw [analyze_line_counts]
  induction files with
  | nil => rfl
  | cons f fs ih =>
    by_cases h : pySuffix f.1 = (".ts") ∨ pySuffix f.1 = (".tsx")
    · have he : lcEntry f = some (f.1, recordedCount f.2) := by
        unfold lcEntry
        rw [if_pos h]
      have hb : (pySuffix f.1 == (".ts") || pySuffix f.1 == (".tsx")) = true := by
        rcases h with h | h <;> simp [h]
      simp [List.filterMap_cons, he, hb, ih]
    · have he : lcEntry f = none := by
        unfold lcEntry
        rw [if_neg h]
      have hb : (pySuffix f.1 == (".ts") || pySuffix f.1 == (".tsx")) = false := by
        push_neg at h
        simp [beq_false_of_ne h.1, beq_false_of_ne h.2]
      simp [List.filterMap_cons, he, hb, ih]

/-! ## Driver fold lemmas -/

theorem genStep_paths (fs : FileSys) (w : List (List String × String))
    (outs : List (List String × String)) (item : DirEntry) :
    (genStep fs w outs item).map Prod.fst = outs.map Prod.fst ++ [item.1] := by
  unfold genStep
  simp

theorem runQueue_cons (fs : FileSys) (w : List (List String × String))
    (outs : List (List String × String)) (x : DirEntry) (xs : List DirEntry) :
    runQueue fs w outs (x :: xs) = runQueue fs w (genStep fs w outs x) xs := rfl

theorem runQueue_nil (fs : FileSys) (w : List (List String × String))
    (outs : List (List String × String)) : runQueue fs w outs [] = outs := rfl

theorem runQueue_paths (fs : FileSys) (w : List (List String × String))
    (q : List DirEntry) (outs : List (List String × String)) :
    (runQueue fs w outs q).map Prod.fst = outs.map Prod.fst ++ q.map Prod.fst := by
  induction q generalizing outs with
  | nil => simp [runQueue]
  | cons x xs ih =>
    rw [runQueue_cons, ih, genStep_paths]
    simp

theorem runTool_paths (fs : FileSys) (w : List (List String × String)) :
    (runTool fs w).map Prod.fst = (orderQueue (discover fs w)).map Prod.fst := by
  unfold runTool
  rw [runQueue_paths]
  rfl

theorem mem_discover_iff {fs : FileSys} {w : List (List String × String)}
    {e : DirEntry} :
    e ∈ discover fs w ↔
      e ∈ fs.dirs ∧ hasReadmeFiles e.2 = false ∧ w.lookup e.1 = none := by
  unfold discover
  rw [List.mem_filter]
  constructor
  · rintro ⟨h1, h2⟩
    simp only [Bool.not_eq_true', Bool.or_eq_false_iff] at h2
    exact ⟨h1, h2.1, by
      cases hl : w.lookup e.1 with
      | none => rfl
      | some c => rw [hl] at h2; simp at h2⟩
  · rintro ⟨h1, h2, h3⟩
    refine ⟨h1, ?_⟩
    simp [h2, h3]

theorem discover_sublist (fs : FileSys) (w : List (List String × String)) :
    (discover fs w).Sublist fs.dirs :=
  List.filter_sublist _

theorem orderQueue_perm (q : List DirEntry) : (orderQueue q).Perm q :=
  List.perm_insertionSort depthLe q

theorem orderQueue_sorted (q : List DirEntry) : List.Sorted depthLe (orderQueue q) :=
  List.sorted_insertionSort depthLe q

theorem wf_queue_nodup {fs : FileSys} {w : List (List String × String)}
    (h : wfPaths fs) :
    ((orderQueue (discover fs w)).map Prod.fst).Nodup := by
  have hd : ((discover fs w).map Prod.fst).Nodup :=
    List.Nodup.sublist (List.Sublist.map Prod.fst (discover_sublist fs w)) h
  exact (((orderQueue_perm (discover fs w)).map Prod.fst).nodup_iff).mpr hd

theorem runQueue_out_mem {fs : FileSys} {w : List (List String × String)}
    {q : List DirEntry} {outs : List (List String × String)}
    {p : List String} {c : String}
    (h : (p, c) ∈ runQueue fs w outs q) :
    (p, c) ∈ outs ∨
      ∃ A B x, q = A ++ x :: B ∧ x.1 = p ∧
        c = stepDoc fs w (runQueue fs w outs A) x := by
  induction q generalizing outs with
  | nil => exact Or.inl h
  | cons x xs ih =>
    rw [runQueue_cons] at h
    rcases ih h with hmem | ⟨A, B, y, hq, hy, hc⟩
    · unfold genStep at hmem
      rcases List.mem_append.mp hmem with hmem | hmem
      · exact Or.inl hmem
      · have he := List.mem_singleton.mp hmem
        have hp : x.1 = p := (congrArg Prod.fst he).symm
        have hcd : c = stepDoc fs w outs x := congrArg Prod.snd he
        refine Or.inr ⟨[], xs, x, rfl, hp, ?_⟩
        rw [runQueue_nil]
        exact hcd
    · exact Or.inr ⟨x :: A, B, y, by rw [hq, List.cons_append], hy, hc⟩

theorem nodup_mid_eq {α : Type _} {l : List α} {a : α} {A B A' B' : List α}
    (hn : l.Nodup) (h1 : l = A ++ a :: B) (h2 : l = A' ++ a :: B') :
    A = A' ∧ B = B' := by
  subst h1
  induction A generalizing A' with
  | nil =>
    cases A' with
    | nil =>
      simp at h2
      exact ⟨rfl, h2⟩
    | cons y ys =>
      exfalso
      rw [List.nil_append] at h2
      have hhead := (List.cons.injEq _ _ _ _).mp h2
      have hB : a ∈ B := by
        rw [hhead.2]
        exact List.mem_append.mpr (Or.inr (List.mem_cons_self a B'))
      exact (List.nodup_cons.mp (by simpa using hn)).1 hB
  | cons x xs ih =>
    cases A' with
    | nil =>
      exfalso
      rw [List.nil_append] at h2
      have hhead := (List.cons.injEq _ _ _ _).mp h2
      have hn' := List.nodup_cons.mp (by simpa using hn : (x :: (xs ++ a :: B)).Nodup)
      refine hn'.1 ?_
      rw [hhead.1]
      exact List.mem_append.mpr (Or.inr (List.mem_cons_self a B))
    | cons y ys =>
      rw [List.cons_append, List.cons_append] at h2
      have hhead := (List.cons.injEq _ _ _ _).mp h2
      have hn' := List.nodup_cons.mp (by simpa using hn : (x :: (xs ++ a :: B)).Nodup)
      obtain ⟨hA, hB⟩ := ih hn'.2 hhead.2
      exact ⟨by rw [hhead.1, hA], hB⟩

theorem runTool_entry {fs : FileSys} {w : List (List String × String)}
    (hwf : wfPaths fs) {x : DirEntry}
    (hx : x ∈ orderQueue (discover fs w)) :
    ∃ A B, orderQueue (discover fs w) = A ++ x :: B ∧
      (runQueue fs w [] A).map Prod.fst = A.map Prod.fst ∧
      ∀ c, (x.1, c) ∈ runTool fs w → c = stepDoc fs w (runQueue fs w [] A) x := by
  obtain ⟨A, B, hAB⟩ := List.append_of_mem hx
  refine ⟨A, B, hAB, by rw [runQueue_paths]; rfl, ?_⟩
  intro c hc
  unfold runTool at hc
  rcases runQueue_out_mem hc with hmem | ⟨A', B', y, hq, hy, hco⟩
  · simp at hmem
  · have hnodup := wf_queue_nodup (w := w) hwf
    have hm1 : (orderQueue (discover fs w)).map Prod.fst =
        A.map Prod.fst ++ x.1 :: B.map Prod.fst := by
      rw [hAB]
      simp
    have hm2 : (orderQueue (discover fs w)).map Prod.fst =
        A'.map Prod.fst ++ x.1 :: B'.map Prod.fst := by
      rw [hq]
      simp [hy]
    obtain ⟨hA, _⟩ := nodup_mid_eq hnodup hm1 hm2
    have hlen : A.length = A'.length := by
      have := congrArg List.length hA
      simpa using this
    have := List.append_inj (hAB.symm.trans hq) hlen
    obtain ⟨hAeq, hcons⟩ := this
    have hxy : x = y := ((List.cons.injEq _ _ _ _).mp hcons).1
    rw [hco, ← hAeq, ← hxy]

theorem countP_eq_one_of_nodup {α : Type _} [BEq α] [LawfulBEq α]
    {l : List α} {a : α} (hn : l.Nodup) (ha : a ∈ l) :
    l.countP (fun b => b == a) = 1 := by
  induction l with
  | nil => simp at ha
  | cons x xs ih =>
    rw [List.countP_cons]
    rcases List.mem_cons.mp ha with he | hmem
    · subst he
      have hz : xs.countP (fun b => b == a) = 0 := by
        rw [List.countP_eq_zero]
        intro b hb
        have : b ≠ a := fun he2 => (List.nodup_cons.mp hn).1 (he2 ▸ hb)
        simpa using this
      simp [hz]
    · have hx : (x == a) = false := by
        have : x ≠ a := fun he2 => (List.nodup_cons.mp hn).1 (he2 ▸ hmem)
        simpa using this
      rw [ih (List.nodup_cons.mp hn).2 hmem, hx]
      rfl

theorem runTool_count {fs : FileSys} {w : List (List String × String)}
    (hwf : wfPaths fs) {x : DirEntry} (hx : x ∈ discover fs w) :
    ((runTool fs w).map Prod.fst).countP (fun q => q == x.1) = 1 := by
  rw [runTool_paths]
  refine countP_eq_one_of_nodup (wf_queue_nodup hwf) ?_
  exact List.mem_map_of_mem Prod.fst ((orderQueue_perm _).mem_iff.mpr hx)

/-! ## Claims -/

/-- C3: running the tool twice in succession on the same tree is
idempotent — assuming every write in the first run succeeds (writes
always succeed in this model), the second run queues zero folders (its
discovery phase skips every folder) and performs no write. -/
theorem claim3_second_run_noop (fs : FileSys) :
    discover fs (runTool fs []) = [] ∧ runTool fs (runTool fs []) = [] := by
  have hq : discover fs (runTool fs []) = [] := by
    unfold discover
    rw [List.filter_eq_nil_iff]
    intro e he
    by_cases hr : hasReadmeFiles e.2 = true
    · simp [hr]
    · have hd : e ∈ discover fs [] :=
        mem_discover_iff.mpr ⟨he, by simpa using hr, rfl⟩
      have hp : e.1 ∈ (runTool fs []).map Prod.fst := by
        rw [runTool_paths]
        exact List.mem_map_of_mem Prod.fst ((orderQueue_perm _).mem_iff.mpr hd)
      have hs : ((runTool fs []).lookup e.1).isSome = true :=
        (lookup_isSome_iff _ _).mpr hp
      simp [hs]
  refine ⟨hq, ?_⟩
  have hrt : runTool fs (runTool fs []) =
      runQueue fs (runTool fs []) [] (orderQueue (discover fs (runTool fs []))) := rfl
  rw [hrt, hq]
  rfl

/-- C10: in every `FolderAnalysis` the analyzer produces, the line-count
map has an entry for exactly the immediate files whose extension is
`.ts` or `.tsx` (value `0` when the read fails) and no other keys, so the
renderer's line-count lookup for a `.ts` file of the folder never
misses. -/
theorem claim10_line_counts_invariant (name : String)
    (files : List (String × Option String)) (subs : List String)
    (hnd : (files.map Prod.fst).Nodup) :
    (analyze_folder name files subs).line_counts.map Prod.fst =
      (files.map Prod.fst).filter
        (fun g => pySuffix g == (".ts") || pySuffix g == (".tsx")) ∧
    (∀ g, g ∈ files.map Prod.fst → pySuffix g = (".ts") →
      ((analyze_folder name files subs).line_counts.lookup g).isSome = true) ∧
    (∀ g, (g, (none : Option String)) ∈ files →
      pySuffix g = (".ts") ∨ pySuffix g = (".tsx") →
      (analyze_folder name files subs).line_counts.lookup g = some 0) := by
  refine ⟨analyze_line_counts_keys name files subs, ?_, ?_⟩
  · intro g hg hts
    rw [lookup_isSome_iff, analyze_line_counts_keys]
    rw [List.mem_filter]
    exact ⟨hg, by simp [hts]⟩
  · intro g hg hsf
    have hkeys : ((analyze_folder name files subs).line_counts.map Prod.fst).Nodup := by
      rw [analyze_line_counts_keys]
      exact hnd.filter _
    refine lookup_of_mem_nodup hkeys ?_
    rw [analyze_line_counts]
    refine List.mem_filterMap.mpr ⟨(g, none), hg, ?_⟩
    unfold lcEntry
    rw [if_pos hsf]
    rfl

/-- Witness for C10 at a concrete folder: one readable `.ts` file, one
unreadable `.tsx` file and one `.json` file. -/
theorem claim10_witness :
    ((([("a.ts", some "x\n"), ("b.tsx", none), ("c.json", some "{}")]
        : List (String × Option String)).map Prod.fst).Nodup ∧
      (analyze_folder ("pkg")
          [("a.ts", some "x\n"), ("b.tsx", none), ("c.json", some "{}")]
          []).line_counts.map Prod.fst =
        (([("a.ts", some "x\n"), ("b.tsx", none), ("c.json", some "{}")]
          : List (String × Option String)).map Prod.fst).filter
          (fun g => pySuffix g == (".ts") || pySuffix g == (".tsx"))) ∧
    (analyze_folder ("pkg")
        [("a.ts", some "x\n"), ("b.tsx", none), ("c.json", some "{}")]
        []).line_counts.lookup ("b.tsx") = some 0 := by
  have h := claim10_line_counts_invariant ("pkg")
    [("a.ts", some "x\n"), ("b.tsx", none), ("c.json", some "{}")] []
    (by decide)
  exact ⟨⟨by decide, h.1⟩, h.2.2 ("b.tsx") (by decide) (by decide)⟩

/-- Shared helper: a file of the folder whose suffix is `.ts` always has
a `line_counts` entry. -/
theorem lookup_ts_isSome (name : String) (files : List (String × Option String))
    (subs : List String) {f : String} (hmem : f ∈ files.map Prod.fst)
    (hts : pySuffix f = (".ts")) :
    ((analyze_folder name files subs).line_counts.lookup f).isSome = true := by
  rw [lookup_isSome_iff, analyze_line_counts_keys, List.mem_filter]
  exact ⟨hmem, by simp [hts]⟩

/-- Shared helper: only files of suffix `.ts` or `.tsx` have a
`line_counts` entry. -/
theorem suffix_of_lookup_isSome (name : String)
    (files : List (String × Option String)) (subs : List String) {f : String}
    (h : ((analyze_folder name files subs).line_counts.lookup f).isSome = true) :
    pySuffix f = (".ts") ∨ pySuffix f = (".tsx") := by
  rw [lookup_isSome_iff, analyze_line_counts_keys] at h
  have hb := (List.mem_filter.mp h).2
  simpa using hb

/-- Shared helper: a `.tsx`-suffixed name matches none of the renderer's
four `endswith` tests. -/
theorem tsx_ends_none {f : String} (h : pySuffix f = (".tsx")) :
    pyEndsWith f (".ts") = false ∧ pyEndsWith f (".js") = false ∧
      pyEndsWith f (".json") = false ∧ pyEndsWith f (".md") = false :=
  ⟨pyEndsWith_ne_of_suffix h (by decide) (by decide) (by decide)
      (t := (".ts")) (by decide),
    pyEndsWith_ne_of_suffix h (by decide) (by decide) (by decide)
      (t := (".js")) (by decide),
    pyEndsWith_ne_of_suffix h (by decide) (by decide) (by decide)
      (t := (".json")) (by decide),
    pyEndsWith_ne_of_suffix h (by decide) (by decide) (by decide)
      (t := (".md")) (by decide)⟩

/-- C5 (counterexample): a folder holding only `a.tsx` and `b.jsx` —
both of the claim's tracked categories, `a.tsx` even of the primary
tracked extension — renders a Key Files section with no entry at all,
contradicting the claimed line-count entry for `.tsx` and generic entry
for `.jsx`. -/
theorem claim5_counterexample :
    (analyze_folder ("pkg") [("a.tsx", some "x\n"), ("b.jsx", some "y\n")]
        []).files ≠ [] ∧
    keyFilesSection
        (analyze_folder ("pkg") [("a.tsx", some "x\n"), ("b.jsx", some "y\n")] []) =
      [("## 📄 Key Files"), ""] := by
  decide

/-- C5 (amended): in the Key Files section (present exactly when the
folder has files), a file is listed with its line count if and only if
its suffix is exactly `.ts`; every other file whose name ends in `.ts`
(e.g. the bare name `.ts`), `.js`, `.json` or `.md` — whatever its
suffix — gets the generic placeholder line; files matching none of
those endings, among them every `.tsx` and `.jsx` file, are omitted.
The three cases partition all files of the folder. -/
theorem claim5_amended (name : String) (files : List (String × Option String))
    (subs : List String) (f : String)
    (hf : f ∈ (analyze_folder name files subs).files) :
    ((pySuffix f = (".ts")) ↔
      ∃ k, (analyze_folder name files subs).line_counts.lookup f = some k ∧
        keyFileLine (analyze_folder name files subs) f = [countLineFor f k]) ∧
    (pySuffix f ≠ (".ts") →
      (pyEndsWith f (".ts") || pyEndsWith f (".js") || pyEndsWith f (".json")
        || pyEndsWith f (".md")) = true →
      keyFileLine (analyze_folder name files subs) f = [genericLineFor f]) ∧
    ((pyEndsWith f (".ts") || pyEndsWith f (".js") || pyEndsWith f (".json")
        || pyEndsWith f (".md")) = false →
      keyFileLine (analyze_folder name files subs) f = []) ∧
    (pySuffix f = (".tsx") ∨ pySuffix f = (".jsx") →
      keyFileLine (analyze_folder name files subs) f = []) ∧
    (keyFilesSection (analyze_folder name files subs) = [] ↔
      (analyze_folder name files subs).files = []) := by
  have hmem : f ∈ files.map Prod.fst := by
    rw [← analyze_files name files subs]
    exact hf
  have hOmitTsx : pySuffix f = (".tsx") →
      keyFileLine (analyze_folder name files subs) f = [] := by
    intro h
    obtain ⟨e1, e2, e3, e4⟩ := tsx_ends_none h
    unfold keyFileLine
    rw [e1, e2, e3, e4]
    simp
  refine ⟨⟨?_, ?_⟩, ?_, ?_, ?_, ?_⟩
  · intro hts
    have hsome := lookup_ts_isSome name files subs hmem hts
    obtain ⟨k, hk⟩ := Option.isSome_iff_exists.mp hsome
    refine ⟨k, hk, ?_⟩
    unfold keyFileLine
    rw [pyEndsWith_of_suffix hts (by decide), hk]
    simp
  · rintro ⟨k, hk, hkfl⟩
    have hsome : ((analyze_folder name files subs).line_counts.lookup f).isSome
        = true := by
      rw [hk]
      rfl
    rcases suffix_of_lookup_isSome name files subs hsome with h | h
    · exact h
    · exfalso
      rw [hOmitTsx h] at hkfl
      simp at hkfl
  · intro hsne hends
    have hcond : (pyEndsWith f (".ts") &&
        ((analyze_folder name files subs).line_counts.lookup f).isSome) = false := by
      cases hts : pyEndsWith f (".ts") with
      | false => rfl
      | true =>
        have hnone : ((analyze_folder name files subs).line_counts.lookup f).isSome
            = false := by
          cases hiso : ((analyze_folder name files subs).line_counts.lookup f).isSome with
          | false => rfl
          | true =>
            exfalso
            rcases suffix_of_lookup_isSome name files subs hiso with h | h
            · exact hsne h
            · rw [(tsx_ends_none h).1] at hts
              simp at hts
        rw [hnone]
        rfl
    unfold keyFileLine
    rw [hcond, hends]
    simp
  · intro h
    simp only [Bool.or_eq_false_iff] at h
    unfold keyFileLine
    rw [h.1.1.1, h.1.1.2, h.1.2, h.2]
    simp
  · intro h
    rcases h with h | h
    · exact hOmitTsx h
    · have e1 := pyEndsWith_ne_of_suffix h (by decide) (by decide) (by decide)
        (t := (".ts")) (by decide)
      have e2 := pyEndsWith_ne_of_suffix h (by decide) (by decide) (by decide)
        (t := (".js")) (by decide)
      have e3 := pyEndsWith_ne_of_suffix h (by decide) (by decide) (by decide)
        (t := (".json")) (by decide)
      have e4 := pyEndsWith_ne_of_suffix h (by decide) (by decide) (by decide)
        (t := (".md")) (by decide)
      unfold keyFileLine
      rw [e1, e2, e3, e4]
      simp
  · unfold keyFilesSection
    by_cases he : (analyze_folder name files subs).files = []
    · simp [he]
    · simp [he]

/-- Witness for C5 at a concrete folder containing a `.ts` file and a
bare `.ts` dotfile (suffix empty, so it gets the generic line). -/
theorem claim5_witness :
    (("a.ts") ∈ (analyze_folder ("pkg")
        [("a.ts", some "x\n"), (".ts", some "y\n")] []).files ∧
      (".ts") ∈ (analyze_folder ("pkg")
        [("a.ts", some "x\n"), (".ts", some "y\n")] []).files) ∧
    ((pySuffix ("a.ts") = (".ts")) ↔
      ∃ k, (analyze_folder ("pkg")
          [("a.ts", some "x\n"), (".ts", some "y\n")] []).line_counts.lookup
          ("a.ts") = some k ∧
        keyFileLine (analyze_folder ("pkg")
            [("a.ts", some "x\n"), (".ts", some "y\n")] []) ("a.ts") =
          [countLineFor ("a.ts") k]) ∧
    (pySuffix (".ts") ≠ (".ts") →
      (pyEndsWith (".ts") (".ts") || pyEndsWith (".ts") (".js")
        || pyEndsWith (".ts") (".json") || pyEndsWith (".ts") (".md")) = true →
      keyFileLine (analyze_folder ("pkg")
          [("a.ts", some "x\n"), (".ts", some "y\n")] []) (".ts") =
        [genericLineFor (".ts")]) := by
  have h1 := claim5_amended ("pkg") [("a.ts", some "x\n"), (".ts", some "y\n")]
    [] ("a.ts") (by decide)
  have h2 := claim5_amended ("pkg") [("a.ts", some "x\n"), (".ts", some "y\n")]
    [] (".ts") (by decide)
  exact ⟨⟨by decide, by decide⟩, h1.1, h2.2.1⟩

/-- C6 (counterexample): `a.tsx` with one newline-terminated line is of
the primary tracked extension and the analyzer records line count 1, but
the rendered Key Files section holds no entry for it at all, so no entry
displays the count. -/
theorem claim6_counterexample :
    (analyze_folder ("pkg") [("a.tsx", some "x\n")] []).line_counts.lookup
        ("a.tsx") = some 1 ∧
    keyFileLine (analyze_folder ("pkg") [("a.tsx", some "x\n")] []) ("a.tsx") = [] ∧
    keyFilesSection (analyze_folder ("pkg") [("a.tsx", some "x\n")] []) =
      [("## 📄 Key Files"), ""] := by
  decide

/-- C6 (amended): for a readable file of suffix `.ts` or `.tsx` whose
content is exactly `k` newline-terminated lines, the analyzer records
line count `k`; the rendered Key Files entry displays exactly `k` when
the suffix is `.ts`, while a `.tsx` file gets no rendered entry. -/
theorem claim6_amended (name : String) (files : List (String × Option String))
    (subs : List String) (f c : String) (k : Nat)
    (hmem : (f, some c) ∈ files) (hnd : (files.map Prod.fst).Nodup)
    (hk : NLTerminatedLines c k) :
    (pySuffix f = (".ts") ∨ pySuffix f = (".tsx") →
      (analyze_folder name files subs).line_counts.lookup f = some k) ∧
    (pySuffix f = (".ts") →
      keyFileLine (analyze_folder name files subs) f = [countLineFor f k]) ∧
    (pySuffix f = (".tsx") →
      keyFileLine (analyze_folder name files subs) f = []) := by
  obtain ⟨parts, hlen, hclean, hdata⟩ := hk
  have hcount : recordedCount (some c) = k := by
    show pyLineCount c.data = k
    rw [hdata, pyLineCount_terminated hclean, hlen]
  have hlook : ∀ hsf : pySuffix f = (".ts") ∨ pySuffix f = (".tsx"),
      (analyze_folder name files subs).line_counts.lookup f = some k := by
    intro hsf
    have hkeys : ((analyze_folder name files subs).line_counts.map Prod.fst).Nodup := by
      rw [analyze_line_counts_keys]
      exact hnd.filter _
    refine lookup_of_mem_nodup hkeys ?_
    rw [analyze_line_counts]
    refine List.mem_filterMap.mpr ⟨(f, some c), hmem, ?_⟩
    unfold lcEntry
    rw [if_pos hsf, hcount]
  refine ⟨hlook, ?_, ?_⟩
  · intro hts
    unfold keyFileLine
    rw [pyEndsWith_of_suffix hts (by decide), hlook (Or.inl hts)]
    simp
  · intro htsx
    have e1 := pyEndsWith_ne_of_suffix htsx (by decide) (by decide) (by decide)
      (t := (".ts")) (by decide)
    have e2 := pyEndsWith_ne_of_suffix htsx (by decide) (by decide) (by decide)
      (t := (".js")) (by decide)
    have e3 := pyEndsWith_ne_of_suffix htsx (by decide) (by decide) (by decide)
      (t := (".json")) (by decide)
    have e4 := pyEndsWith_ne_of_suffix htsx (by decide) (by decide) (by decide)
      (t := (".md")) (by decide)
    unfold keyFileLine
    rw [e1, e2, e3, e4]
    simp

/-- Witness for C6 at a concrete folder: `a.ts` with two
newline-terminated lines. -/
theorem claim6_witness :
    (("a.ts", some "x\ny\n") ∈
        ([("a.ts", some "x\ny\n")] : List (String × Option String))) ∧
    (analyze_folder ("pkg") [("a.ts", some "x\ny\n")] []).line_counts.lookup
        ("a.ts") = some 2 ∧
    keyFileLine (analyze_folder ("pkg") [("a.ts", some "x\ny\n")] []) ("a.ts") =
      [countLineFor ("a.ts") 2] := by
  have h := claim6_amended ("pkg") [("a.ts", some "x\ny\n")] [] ("a.ts")
    ("x\ny\n") 2 (by decide) (by decide)
    ⟨[['x'], ['y']], by decide, by decide, by decide⟩
  exact ⟨by decide, h.1 (Or.inl (by decide)), h.2.1 (by decide)⟩

/-- C8: within the 'Key Files' and 'Subfolders' sections entries appear
in strict lexicographic order of their names, for every enumeration
order of the folder's entries — the rendered sections are invariant
under permuting the analyzer's input, and the sorted name lists are
pairwise strictly increasing. -/
theorem claim8_ordering (name : String)
    (files1 files2 : List (String × Option String)) (subs1 subs2 : List String)
    (hpf : files1.Perm files2) (hps : subs1.Perm subs2)
    (hnd : (files1.map Prod.fst).Nodup) (hnds : subs1.Nodup) :
    keyFilesSection (analyze_folder name files1 subs1) =
      keyFilesSection (analyze_folder name files2 subs2) ∧
    subfoldersSection (analyze_folder name files1 subs1) =
      subfoldersSection (analyze_folder name files2 subs2) ∧
    List.Pairwise (fun a b => pyLe a b ∧ a ≠ b)
      (pySortStr (analyze_folder name files1 subs1).files) ∧
    List.Pairwise (fun a b => pyLe a b ∧ a ≠ b)
      (pySortStr (analyze_folder name files1 subs1).subfolders) := by
  have hf1 := analyze_files name files1 subs1
  have hf2 := analyze_files name files2 subs2
  have hpn : (files1.map Prod.fst).Perm (files2.map Prod.fst) := hpf.map Prod.fst
  have hsort_eq : pySortStr (files1.map Prod.fst) = pySortStr (files2.map Prod.fst) := by
    refine List.eq_of_perm_of_sorted ?_ (List.sorted_insertionSort pyLe _)
      (List.sorted_insertionSort pyLe _)
    exact (List.perm_insertionSort pyLe _).trans
      (hpn.trans (List.perm_insertionSort pyLe _).symm)
  have hlook : ∀ f, (analyze_folder name files1 subs1).line_counts.lookup f =
      (analyze_folder name files2 subs2).line_counts.lookup f := by
    intro f
    rw [analyze_line_counts, analyze_line_counts]
    refine perm_lookup_nodup (hpf.filterMap lcEntry) ?_ f
    have hk := analyze_line_counts_keys name files1 subs1
    rw [analyze_line_counts] at hk
    rw [hk]
    exact hnd.filter _
  have hkfl : ∀ f, keyFileLine (analyze_folder name files1 subs1) f =
      keyFileLine (analyze_folder name files2 subs2) f := by
    intro f
    unfold keyFileLine
    rw [hlook f]
  refine ⟨?_, ?_, ?_, ?_⟩
  · unfold keyFilesSection
    rw [hf1, hf2]
    by_cases he : files1.map Prod.fst = []
    · have he2 : files2.map Prod.fst = [] := by
        rw [← List.length_eq_zero, ← hpn.length_eq, List.length_eq_zero]
        exact he
      simp [he, he2]
    · have he2 : ¬ files2.map Prod.fst = [] := by
        intro h2
        exact he (by rw [← List.length_eq_zero, hpn.length_eq, List.length_eq_zero]; exact h2)
      rw [if_neg he, if_neg he2, hsort_eq]
      have : ∀ g ∈ pySortStr (files2.map Prod.fst),
          keyFileLine (analyze_folder name files1 subs1) g =
          keyFileLine (analyze_folder name files2 subs2) g := fun g _ => hkfl g
      rw [List.map_congr_left this]
  · unfold subfoldersSection
    rw [analyze_subfolders, analyze_subfolders]
    have hpsub : (subs1.filter keptDir).Perm (subs2.filter keptDir) := hps.filter keptDir
    have hsub_eq : pySortStr (subs1.filter keptDir) = pySortStr (subs2.filter keptDir) := by
      refine List.eq_of_perm_of_sorted ?_ (List.sorted_insertionSort pyLe _)
        (List.sorted_insertionSort pyLe _)
      exact (List.perm_insertionSort pyLe _).trans
        (hpsub.trans (List.perm_insertionSort pyLe _).symm)
    by_cases he : subs1.filter keptDir = []
    · have he2 : subs2.filter keptDir = [] := by
        rw [← List.length_eq_zero, ← hpsub.length_eq, List.length_eq_zero]
        exact he
      simp [he, he2]
    · have he2 : ¬ subs2.filter keptDir = [] := by
        intro h2
        exact he (by rw [← List.length_eq_zero, hpsub.length_eq, List.length_eq_zero]; exact h2)
      rw [if_neg he, if_neg he2, hsub_eq]
  · rw [hf1]
    have hsorted : List.Pairwise pyLe (pySortStr (files1.map Prod.fst)) :=
      List.sorted_insertionSort pyLe _
    have hnod : (pySortStr (files1.map Prod.fst)).Nodup :=
      ((List.perm_insertionSort pyLe _).nodup_iff).mpr hnd
    exact hsorted.and hnod
  · rw [analyze_subfolders]
    have hsorted : List.Pairwise pyLe (pySortStr (subs1.filter keptDir)) :=
      List.sorted_insertionSort pyLe _
    have hnod : (pySortStr (subs1.filter keptDir)).Nodup :=
      ((List.perm_insertionSort pyLe _).nodup_iff).mpr (hnds.filter _)
    exact hsorted.and hnod

/-- Witness for C8 at a concrete folder: two files and two subfolders in
reversed enumeration orders yield identical, strictly ordered
sections. -/
theorem claim8_witness :
    (([("b.ts", some "x\n"), ("a.ts", some "y\n")]
        : List (String × Option String)).Perm
      [("a.ts", some "y\n"), ("b.ts", some "x\n")]) ∧
    keyFilesSection (analyze_folder ("pkg")
        [("b.ts", some "x\n"), ("a.ts", some "y\n")] ["zz", "aa"]) =
      keyFilesSection (analyze_folder ("pkg")
        [("a.ts", some "y\n"), ("b.ts", some "x\n")] ["aa", "zz"]) ∧
    List.Pairwise (fun a b => pyLe a b ∧ a ≠ b)
      (pySortStr (analyze_folder ("pkg")
        [("b.ts", some "x\n"), ("a.ts", some "y\n")] ["zz", "aa"]).files) := by
  have h := claim8_ordering ("pkg")
    [("b.ts", some "x\n"), ("a.ts", some "y\n")]
    [("a.ts", some "y\n"), ("b.ts", some "x\n")]
    ["zz", "aa"] ["aa", "zz"]
    (by decide) (by decide) (by decide) (by decide)
  exact ⟨by decide, h.1, h.2.2.1⟩

/-- C9: the exclusion set `{node_modules, .git, __pycache__}` is applied
only when the analyzer lists a parent's subfolders; the discovery walk
does not prune those names, so a directory so named that lacks
`README.md` is itself queued and written, while never appearing in any
rendered Subfolders list. -/
theorem claim9_exclusion_only_in_analyzer (fs : FileSys) (p : List String)
    (fls : List (String × Option String)) (hmem : (p, fls) ∈ fs.dirs)
    (hname : p.getLastD ("") = ("node_modules") ∨ p.getLastD ("") = (".git") ∨
      p.getLastD ("") = ("__pycache__"))
    (hnr : hasReadmeFiles fls = false) :
    (p, fls) ∈ discover fs [] ∧
    p ∈ (runTool fs []).map Prod.fst ∧
    (∀ nm gfiles gsubs,
      (p.getLastD ("")) ∉ (analyze_folder nm gfiles gsubs).subfolders) := by
  have hq : (p, fls) ∈ discover fs [] := mem_discover_iff.mpr ⟨hmem, hnr, rfl⟩
  refine ⟨hq, ?_, ?_⟩
  · rw [runTool_paths]
    exact List.mem_map_of_mem Prod.fst ((orderQueue_perm _).mem_iff.mpr hq)
  · intro nm gfiles gsubs hin
    rw [analyze_subfolders] at hin
    have hkept : keptDir (p.getLastD ("")) = true := (List.mem_filter.mp hin).2
    rcases hname with h | h | h <;> rw [h] at hkept <;> exact absurd hkept (by decide)

/-- Witness for C9 at a concrete filesystem holding
`src/node_modules`. -/
theorem claim9_witness :
    ((["src", "node_modules"], ([] : List (String × Option String))) ∈
        (FileSys.mk [(["src"], []), (["src", "node_modules"], [])]).dirs ∧
      hasReadmeFiles ([] : List (String × Option String)) = false) ∧
    (["src", "node_modules"] : List String) ∈
      (runTool (FileSys.mk [(["src"], []), (["src", "node_modules"], [])]) []).map
        Prod.fst ∧
    (∀ nm gfiles gsubs,
      ((["src", "node_modules"] : List String).getLastD ("")) ∉
        (analyze_folder nm gfiles gsubs).subfolders) := by
  have h := claim9_exclusion_only_in_analyzer
    (FileSys.mk [(["src"], []), (["src", "node_modules"], [])])
    (["src", "node_modules"]) [] (by decide) (by decide) (by decide)
  exact ⟨⟨by decide, by decide⟩, h.2.1, h.2.2⟩

/-- C2: a folder already containing `README.md` at discovery is skipped
and never written; no path is written twice; and the skip test is
content-blind — it depends only on the folder's file names. -/
theorem claim2_skip_existing (fs : FileSys) (p : List String)
    (fls : List (String × Option String)) (hwf : wfPaths fs)
    (hmem : (p, fls) ∈ fs.dirs) (hr : hasReadmeFiles fls = true) :
    p ∉ (runTool fs []).map Prod.fst ∧
    ((runTool fs []).map Prod.fst).Nodup ∧
    (∀ gfls : List (String × Option String),
      hasReadmeFiles gfls = (gfls.map Prod.fst).contains ("README.md")) := by
  refine ⟨?_, ?_, ?_⟩
  · intro hp
    rw [runTool_paths] at hp
    obtain ⟨e, he, hep⟩ := List.mem_map.mp hp
    have hd : e ∈ discover fs [] := (orderQueue_perm _).subset he
    obtain ⟨hin, hnr, _⟩ := mem_discover_iff.mp hd
    have : fls = e.2 := by
      refine eq_of_mem_nodup_fst (l := fs.dirs) hwf hmem ?_
      rw [← hep]
      exact hin
    rw [← this] at hnr
    rw [hr] at hnr
    simp at hnr
  · rw [runTool_paths]
    exact wf_queue_nodup hwf
  · intro gfls
    induction gfls with
    | nil => rfl
    | cons g gt ih =>
      obtain ⟨n, c⟩ := g
      have hcomm : (n == ("README.md" : String)) = (("README.md" : String) == n) := by
        by_cases hn : n = ("README.md" : String)
        · simp [hn]
        · simp [beq_false_of_ne hn, beq_false_of_ne (Ne.symm hn)]
      simp only [hasReadmeFiles, List.any_cons, List.map_cons, List.contains_cons]
      rw [← hasReadmeFiles, ih, hcomm]

/-- Witness for C2 at a concrete filesystem whose `src/keep` folder
already has a `README.md`. -/
theorem claim2_witness :
    (wfPaths (FileSys.mk [(["src"], []),
        (["src", "keep"], [("README.md", some "old")])]) ∧
      hasReadmeFiles [(("README.md" : String), some "old")] = true) ∧
    (["src", "keep"] : List String) ∉
      (runTool (FileSys.mk [(["src"], []),
        (["src", "keep"], [("README.md", some "old")])]) []).map Prod.fst := by
  have h := claim2_skip_existing
    (FileSys.mk [(["src"], []), (["src", "keep"], [("README.md", some "old")])])
    (["src", "keep"]) [("README.md", some "old")]
    (by decide) (by decide) (by decide)
  exact ⟨⟨by decide, by decide⟩, h.1⟩

/-- C7 (counterexample): a three-folder queue whose middle folder's
enumeration raises — the exception escapes with only the first folder's
document written; the run does not continue with the remaining queued
folder, contradicting the claimed reported non-fatal error. -/
theorem claim7_counterexample :
    (generationPhase
        [(("alpha"), Except.ok ([], [])),
         (("locked"), Except.error ("[Errno 13] Permission denied")),
         (("omega"), Except.ok ([], []))] []).2 =
      some ("[Errno 13] Permission denied") ∧
    (generationPhase
        [(("alpha"), Except.ok ([], [])),
         (("locked"), Except.error ("[Errno 13] Permission denied")),
         (("omega"), Except.ok ([], []))] []).1.length = 1 := by
  constructor
  · rfl
  · rfl

/-- C7 (amended): when enumerating a queued directory's entries fails,
the exception raised inside `analyze_folder` is not caught anywhere in
`main` (the `try` of lines 185-188 guards only the write), so it escapes
the driver: exactly the folders queued before the failing one are
written, and the remaining queued folders are never processed. -/
theorem claim7_amended (pre rest : List FallibleItem) (nm e : String)
    (acc : List String)
    (hok : ∀ x ∈ pre, ∃ fls ds, x.2 = Except.ok (fls, ds)) :
    (generationPhase (pre ++ (nm, Except.error e) :: rest) acc).2 = some e ∧
    (generationPhase (pre ++ (nm, Except.error e) :: rest) acc).1.length =
      acc.length + pre.length := by
  induction pre generalizing acc with
  | nil => simp [generationPhase]
  | cons x xs ih =>
    obtain ⟨fls, ds, hx⟩ := hok x (List.mem_cons_self x xs)
    obtain ⟨nx, ex⟩ := x
    simp only at hx
    subst hx
    rw [List.cons_append]
    have hstep : generationPhase
        ((nx, Except.ok (fls, ds)) :: (xs ++ (nm, Except.error e) :: rest)) acc =
        generationPhase (xs ++ (nm, Except.error e) :: rest)
          (acc ++ [generate_readme_content (analyze_folder nx fls ds) none]) := rfl
    rw [hstep]
    have hih := ih (acc ++ [generate_readme_content (analyze_folder nx fls ds) none])
      (fun y hy => hok y (List.mem_cons_of_mem _ hy))
    refine ⟨hih.1, ?_⟩
    rw [hih.2, List.length_append]
    simp
    omega

/-- Witness for C7 at a concrete queue: one successful folder before the
failing one. -/
theorem claim7_witness :
    (∀ x ∈ ([(("alpha"), Except.ok ([], []))] : List FallibleItem),
      ∃ fls ds, x.2 = Except.ok (fls, ds)) ∧
    (generationPhase
        ([(("alpha"), Except.ok ([], []))] ++
          (("locked"), Except.error ("[Errno 13] Permission denied")) ::
            [(("omega"), Except.ok ([], []))]) []).2 =
      some ("[Errno 13] Permission denied") ∧
    (generationPhase
        ([(("alpha"), Except.ok ([], []))] ++
          (("locked"), Except.error ("[Errno 13] Permission denied")) ::
            [(("omega"), Except.ok ([], []))]) []).1.length =
      ([] : List String).length + 1 := by
  have hok : ∀ x ∈ ([(("alpha"), Except.ok ([], []))] : List FallibleItem),
      ∃ fls ds, x.2 = Except.ok (fls, ds) := by
    intro x hx
    rcases List.mem_singleton.mp hx with he
    exact ⟨[], [], by rw [he]⟩
  have h := claim7_amended [(("alpha"), Except.ok ([], []))]
    [(("omega"), Except.ok ([], []))] ("locked")
    ("[Errno 13] Permission denied") [] hok
  exact ⟨hok, h.1, h.2⟩

/-- The first line of every rendered document is its title line. -/
theorem firstLine_readme (info : FolderInfo) (par : Option String)
    (h : ('\n') ∉ (titleLine info.name).data) :
    firstLine (generate_readme_content info par) = titleLine info.name := by
  unfold generate_readme_content
  have hrl : readmeLines info par = titleLine info.name ::
      (["", "## 🎯 What This Folder Does",
        "[Brief description of what this module does within Talon AI Assistant]",
        ""]
        ++ keyFilesSection info ++ subfoldersSection info ++ staticSections
        ++ relatedDocSection par
        ++ ["", "---",
            "*This README was auto-generated. Please update with specific details about this module.*"]) := rfl
  rw [hrl]
  exact firstLine_joinLines h

/-- C1 (counterexample): the run on a tree holding `src/Agent` writes a
document whose first line carries the default purpose `Agent Module`,
not the claimed case-insensitive table entry `AI Agent System` for
`agent`. -/
theorem claim1_counterexample :
    ((runTool (FileSys.mk [(["src"], []), (["src", "Agent"], [])]) []).lookup
        (["src", "Agent"])).map firstLine =
      some ("# 📁 Agent/ - Agent Module") ∧
    ((runTool (FileSys.mk [(["src"], []), (["src", "Agent"], [])]) []).lookup
        (["src", "Agent"])).map firstLine ≠
      some ("# 📁 Agent/ - AI Agent System") := by
  constructor
  · decide
  · decide

/-- C1 (amended): every folder queued at discovery gets exactly one
output, whose first line is `# 📁 <name>/ - <purpose>` with `<purpose>`
the PurposeTable entry under the exact (case-sensitive) folder name —
the table's keys are all lowercase — or `<Titlecased name> Module` when
the name is absent. -/
theorem claim1_amended (fs : FileSys) (p : List String)
    (fls : List (String × Option String)) (hwf : wfPaths fs)
    (hmem : (p, fls) ∈ fs.dirs) (hnr : hasReadmeFiles fls = false)
    (hnl : ('\n') ∉ (p.getLastD ("")).data) :
    ((runTool fs []).map Prod.fst).countP (fun t => t == p) = 1 ∧
    ∀ c, (p, c) ∈ runTool fs [] →
      firstLine c =
        ("# 📁 ") ++ (p.getLastD ("")) ++ ("/ - ") ++ purposeOf (p.getLastD ("")) := by
  have hq : (p, fls) ∈ discover fs [] := mem_discover_iff.mpr ⟨hmem, hnr, rfl⟩
  refine ⟨runTool_count hwf hq, ?_⟩
  intro c hc
  have hqS : (p, fls) ∈ orderQueue (discover fs []) := (orderQueue_perm _).mem_iff.mpr hq
  obtain ⟨A, B, hS, hpaths, huniq⟩ := runTool_entry hwf hqS
  have hcd := huniq c hc
  have hname : (stepInfo fs [] (runQueue fs [] [] A) (p, fls)).name = p.getLastD ("") := by
    unfold stepInfo
    rw [analyze_name]
  rw [hcd]
  unfold stepDoc
  rw [firstLine_readme _ _ (by rw [hname]; exact titleLine_no_nl hnl), hname]
  rfl

/-- Witness for C1 at a concrete tree holding `src/agent`. -/
theorem claim1_witness :
    (wfPaths (FileSys.mk [(["src"], []), (["src", "agent"], [])]) ∧
      ((["src", "agent"] : List String), ([] : List (String × Option String))) ∈
        (FileSys.mk [(["src"], []), (["src", "agent"], [])]).dirs) ∧
    ((runTool (FileSys.mk [(["src"], []), (["src", "agent"], [])]) []).map
        Prod.fst).countP (fun t => t == (["src", "agent"] : List String)) = 1 ∧
    ∀ c, ((["src", "agent"] : List String), c) ∈
        runTool (FileSys.mk [(["src"], []), (["src", "agent"], [])]) [] →
      firstLine c = ("# 📁 ") ++ ((["src", "agent"] : List String).getLastD ("")) ++
        ("/ - ") ++ purposeOf ((["src", "agent"] : List String).getLastD ("")) := by
  have h := claim1_amended (FileSys.mk [(["src"], []), (["src", "agent"], [])])
    (["src", "agent"]) [] (by decide) (by decide) (by decide) (by decide)
  exact ⟨⟨by decide, by decide⟩, h.1, h.2⟩

/-! ## Membership in rendered sections -/

theorem mem_keyFileLine {info : FolderInfo} {f l : String}
    (h : l ∈ keyFileLine info f) :
    l = countLineFor f ((info.line_counts.lookup f).getD 0) ∨
      l = genericLineFor f := by
  unfold keyFileLine at h
  split at h
  · exact Or.inl (List.mem_singleton.mp h)
  · split at h
    · exact Or.inr (List.mem_singleton.mp h)
    · simp at h

theorem mem_keyFilesSection {info : FolderInfo} {l : String}
    (h : l ∈ keyFilesSection info) :
    l = ("## 📄 Key Files") ∨ l = "" ∨
      ∃ f ∈ pySortStr info.files, l ∈ keyFileLine info f := by
  unfold keyFilesSection at h
  split at h
  · simp at h
  · rcases List.mem_cons.mp h with he | hin
    · exact Or.inl he
    · rcases List.mem_append.mp hin with hfl | hsing
      · obtain ⟨ll, hll, hl⟩ := List.mem_flatten.mp hfl
        obtain ⟨f, hf, hfe⟩ := List.mem_map.mp hll
        exact Or.inr (Or.inr ⟨f, hf, hfe ▸ hl⟩)
      · exact Or.inr (Or.inl (List.mem_singleton.mp hsing))

theorem mem_subfoldersSection {info : FolderInfo} {l : String}
    (h : l ∈ subfoldersSection info) :
    l = ("## 📁 Subfolders") ∨ l = "" ∨
      ∃ d ∈ pySortStr info.subfolders, l = subfolderLineFor d := by
  unfold subfoldersSection at h
  split at h
  · simp at h
  · rcases List.mem_cons.mp h with he | hin
    · exact Or.inl he
    · rcases List.mem_append.mp hin with hml | hsing
      · obtain ⟨d, hd, hde⟩ := List.mem_map.mp hml
        exact Or.inr (Or.inr ⟨d, hd, hde.symm⟩)
      · exact Or.inr (Or.inl (List.mem_singleton.mp hsing))

theorem mem_relatedDocSection {par : Option String} {l : String}
    (h : l ∈ relatedDocSection par) :
    l = ("## 📚 Related Documentation") ∨
      ∃ x, par = some x ∧ l = parentLinkLine x := by
  unfold relatedDocSection at h
  rcases List.mem_cons.mp h with he | hin
  · exact Or.inl he
  · cases par with
    | none => simp at hin
    | some x => exact Or.inr ⟨x, rfl, List.mem_singleton.mp hin⟩

theorem mem_readmeLines {info : FolderInfo} {par : Option String} {l : String}
    (h : l ∈ readmeLines info par) :
    l = titleLine info.name ∨ l = "" ∨
      l = ("## 🎯 What This Folder Does") ∨
      l = ("[Brief description of what this module does within Talon AI Assistant]") ∨
      l ∈ keyFilesSection info ∨ l ∈ subfoldersSection info ∨
      l ∈ staticSections ∨ l ∈ relatedDocSection par ∨
      l = ("---") ∨
      l = ("*This README was auto-generated. Please update with specific details about this module.*") := by
  unfold readmeLines at h
  rcases List.mem_append.mp h with h1 | h2
  · rcases List.mem_append.mp h1 with h1 | h2
    · rcases List.mem_append.mp h1 with h1 | h2
      · rcases List.mem_append.mp h1 with h1 | h2
        · rcases List.mem_append.mp h1 with h1 | h2
          · simp only [List.mem_cons, List.mem_nil_iff, or_false] at h1
            rcases h1 with he | he | he | he | he
            · exact Or.inl he
            · exact Or.inr (Or.inl he)
            · exact Or.inr (Or.inr (Or.inl he))
            · exact Or.inr (Or.inr (Or.inr (Or.inl he)))
            · exact Or.inr (Or.inl he)
          · exact Or.inr (Or.inr (Or.inr (Or.inr (Or.inl h2))))
        · exact Or.inr (Or.inr (Or.inr (Or.inr (Or.inr (Or.inl h2)))))
      · exact Or.inr (Or.inr (Or.inr (Or.inr (Or.inr (Or.inr (Or.inl h2))))))
    · exact Or.inr (Or.inr (Or.inr (Or.inr (Or.inr (Or.inr (Or.inr (Or.inl h2)))))))
  · simp only [List.mem_cons, List.mem_nil_iff, or_false] at h2
    rcases h2 with he | he | he
    · exact Or.inr (Or.inl he)
    · exact Or.inr (Or.inr (Or.inr (Or.inr (Or.inr (Or.inr (Or.inr (Or.inr (Or.inl he))))))))
    · exact Or.inr (Or.inr (Or.inr (Or.inr (Or.inr (Or.inr (Or.inr (Or.inr (Or.inr he))))))))

/-! ## Newline-freeness of whole documents -/

theorem countLineFor_no_nl {f : String} (k : Nat) (hf : ('\n') ∉ f.data) :
    ('\n') ∉ (countLineFor f k).data := by
  unfold countLineFor
  rw [data_append, data_append, data_append, data_append]
  simp only [List.mem_append, not_or]
  exact ⟨⟨⟨⟨by decide, hf⟩, by decide⟩, natStr_no_nl k⟩, by decide⟩

theorem genericLineFor_no_nl {f : String} (hf : ('\n') ∉ f.data) :
    ('\n') ∉ (genericLineFor f).data := by
  unfold genericLineFor
  rw [data_append, data_append]
  simp only [List.mem_append, not_or]
  exact ⟨⟨by decide, hf⟩, by decide⟩

theorem subfolderLineFor_no_nl {d : String} (hd : ('\n') ∉ d.data) :
    ('\n') ∉ (subfolderLineFor d).data := by
  unfold subfolderLineFor
  rw [data_append, data_append]
  simp only [List.mem_append, not_or]
  exact ⟨⟨by decide, hd⟩, by decide⟩

theorem parentLinkLine_no_nl {x : String} (hx : ('\n') ∉ x.data) :
    ('\n') ∉ (parentLinkLine x).data := by
  unfold parentLinkLine
  rw [data_append, data_append]
  simp only [List.mem_append, not_or]
  exact ⟨⟨by decide, hx⟩, by decide⟩

theorem readmeLines_no_nl {info : FolderInfo} {par : Option String}
    (hname : ('\n') ∉ info.name.data)
    (hfiles : ∀ f ∈ info.files, ('\n') ∉ f.data)
    (hsubs : ∀ d ∈ info.subfolders, ('\n') ∉ d.data)
    (hpar : ∀ x, par = some x → ('\n') ∉ x.data) :
    ∀ l ∈ readmeLines info par, ('\n') ∉ l.data := by
  intro l hl
  rcases mem_readmeLines hl with he | he | he | he | he | he | he | he | he | he
  · exact he ▸ titleLine_no_nl hname
  · exact he ▸ (by decide)
  · exact he ▸ (by decide)
  · exact he ▸ (by decide)
  · rcases mem_keyFilesSection he with h1 | h1 | ⟨f, hf, hfe⟩
    · exact h1 ▸ (by decide)
    · exact h1 ▸ (by decide)
    · have hfc : ('\n') ∉ f.data :=
        hfiles f ((List.perm_insertionSort pyLe _).subset hf)
      rcases mem_keyFileLine hfe with h2 | h2
      · exact h2 ▸ countLineFor_no_nl _ hfc
      · exact h2 ▸ genericLineFor_no_nl hfc
  · rcases mem_subfoldersSection he with h1 | h1 | ⟨d, hd, hde⟩
    · exact h1 ▸ (by decide)
    · exact h1 ▸ (by decide)
    · have hdc : ('\n') ∉ d.data :=
        hsubs d ((List.perm_insertionSort pyLe _).subset hd)
      exact hde ▸ subfolderLineFor_no_nl hdc
  · have hall : ∀ s ∈ staticSections, ('\n') ∉ s.data := by decide
    exact hall l he
  · rcases mem_relatedDocSection he with h1 | ⟨x, hx, h1⟩
    · exact h1 ▸ (by decide)
    · exact h1 ▸ parentLinkLine_no_nl (hpar x hx)
  · exact he ▸ (by decide)
  · exact he ▸ (by decide)

theorem readmeLines_ne_nil (info : FolderInfo) (par : Option String) :
    readmeLines info par ≠ [] := by
  have hrl : readmeLines info par = titleLine info.name ::
      (["", "## 🎯 What This Folder Does",
        "[Brief description of what this module does within Talon AI Assistant]",
        ""]
        ++ keyFilesSection info ++ subfoldersSection info ++ staticSections
        ++ relatedDocSection par
        ++ ["", "---",
            "*This README was auto-generated. Please update with specific details about this module.*"]) := rfl
  rw [hrl]
  exact List.cons_ne_nil _ _

/-- The lines of a rendered document are exactly the renderer's `lines`
list, provided no interpolated name carries a newline. -/
theorem linesOf_readme {info : FolderInfo} {par : Option String}
    (hname : ('\n') ∉ info.name.data)
    (hfiles : ∀ f ∈ info.files, ('\n') ∉ f.data)
    (hsubs : ∀ d ∈ info.subfolders, ('\n') ∉ d.data)
    (hpar : ∀ x, par = some x → ('\n') ∉ x.data) :
    linesOf (generate_readme_content info par) = readmeLines info par := by
  unfold generate_readme_content
  exact linesOf_joinLines (readmeLines_ne_nil info par)
    (readmeLines_no_nl hname hfiles hsubs hpar)

/-! ## Telling the parent link apart from every other line -/

theorem thirdChar_parentLinkLine (x : String) :
    thirdChar (parentLinkLine x) = some ('S') := by
  unfold thirdChar parentLinkLine
  rw [data_append, data_append]
  rfl

theorem thirdChar_titleLine (n : String) :
    thirdChar (titleLine n) = some ('📁') := by
  unfold thirdChar titleLine
  rw [data_append, data_append, data_append]
  rfl

theorem thirdChar_countLineFor (f : String) (k : Nat) :
    thirdChar (countLineFor f k) = some ('`') := by
  unfold thirdChar countLineFor
  rw [data_append, data_append, data_append, data_append]
  rfl

theorem thirdChar_genericLineFor (f : String) :
    thirdChar (genericLineFor f) = some ('`') := by
  unfold thirdChar genericLineFor
  rw [data_append, data_append]
  rfl

theorem thirdChar_subfolderLineFor (d : String) :
    thirdChar (subfolderLineFor d) = some ('`') := by
  unfold thirdChar subfolderLineFor
  rw [data_append, data_append]
  rfl

/-- When no parent summary was supplied, no Related-Documentation link
line of any parent name occurs anywhere in the rendered lines. -/
theorem parentLink_not_mem_none (info : FolderInfo) (x : String) :
    parentLinkLine x ∉ readmeLines info none := by
  intro hmem
  have h3 := thirdChar_parentLinkLine x
  rcases mem_readmeLines hmem with he | he | he | he | he | he | he | he | he | he
  · rw [he, thirdChar_titleLine] at h3
    simp at h3
  · rw [he] at h3
    simp [thirdChar] at h3
  · rw [he] at h3
    exact absurd h3 (by decide)
  · rw [he] at h3
    exact absurd h3 (by decide)
  · rcases mem_keyFilesSection he with h1 | h1 | ⟨f, _, hfe⟩
    · rw [h1] at h3
      exact absurd h3 (by decide)
    · rw [h1] at h3
      simp [thirdChar] at h3
    · rcases mem_keyFileLine hfe with h2 | h2
      · rw [h2, thirdChar_countLineFor] at h3
        simp at h3
      · rw [h2, thirdChar_genericLineFor] at h3
        simp at h3
  · rcases mem_subfoldersSection he with h1 | h1 | ⟨d, _, hde⟩
    · rw [h1] at h3
      exact absurd h3 (by decide)
    · rw [h1] at h3
      simp [thirdChar] at h3
    · rw [hde, thirdChar_subfolderLineFor] at h3
      simp at h3
  · have hall : ∀ s ∈ staticSections, thirdChar s ≠ some ('S') := by decide
    exact hall _ he h3
  · rcases mem_relatedDocSection he with h1 | ⟨y, hy, _⟩
    · rw [h1] at h3
      exact absurd h3 (by decide)
    · simp at hy
  · rw [he] at h3
    exact absurd h3 (by decide)
  · rw [he] at h3
    exact absurd h3 (by decide)

/-- A parent summary, when present, carries the parent directory's
name. -/
theorem stepParent_eq_some {fs : FileSys} {w outs : List (List String × String)}
    {item : DirEntry} {x : String} (h : stepParent fs w outs item = some x) :
    x = item.1.dropLast.getLastD ("") := by
  simp only [stepParent] at h
  split at h
  · split at h
    · injection h with h
      exact h.symm
    · exact absurd h (by simp)
  · exact absurd h (by simp)

/-- C4 (counterexample): in a run on `src` containing child `alpha`,
the parent `src`'s output file is created earlier in the same run, yet
`alpha`'s rendered document carries no Related-Documentation link — and
the section header is present even though no parent summary was
supplied, so the section is not omitted either. -/
theorem claim4_counterexample :
    ((runTool (FileSys.mk [(["src"], []), (["src", "alpha"], [])]) []).lookup
        (["src"])).isSome = true ∧
    ((runTool (FileSys.mk [(["src"], []), (["src", "alpha"], [])]) []).lookup
        (["src", "alpha"])).isSome = true ∧
    ("## 📚 Related Documentation") ∈
      linesOf (((runTool (FileSys.mk [(["src"], []), (["src", "alpha"], [])])
        []).lookup (["src", "alpha"])).getD ("")) ∧
    parentLinkLine ("src") ∉
      linesOf (((runTool (FileSys.mk [(["src"], []), (["src", "alpha"], [])])
        []).lookup (["src", "alpha"])).getD ("")) := by
  refine ⟨by decide, by decide, by decide, by decide⟩

/-- C4 (amended): every rendered document contains the
`## 📚 Related Documentation` header; a processed folder whose parent is
neither the `src` root nor the project root, and whose parent directory
exists under the root, carries the link line to its parent (the parent's
`README.md` either pre-existed or was written earlier in the same run by
the depth-ordered generation phase); a processed folder whose parent is
the `src` root or the project root carries no link line at all, even
when that parent's output file was created earlier in the run. -/
theorem claim4_amended (fs : FileSys) (p : List String)
    (fls : List (String × Option String)) (hwf : wfPaths fs)
    (hmem : (p, fls) ∈ fs.dirs) (hnr : hasReadmeFiles fls = false)
    (hnl : ('\n') ∉ (p.getLastD ("")).data)
    (hfclean : ∀ f ∈ fls.map Prod.fst, ('\n') ∉ f.data)
    (hsclean : ∀ d ∈ subdirNamesOf fs p, ('\n') ∉ d.data)
    (hqnl : ('\n') ∉ (p.dropLast.getLastD ("")).data) :
    ∀ c, (p, c) ∈ runTool fs [] →
      (("## 📚 Related Documentation") ∈ linesOf c) ∧
      (p.dropLast ≠ (["src"] : List String) → p.dropLast ≠ ([] : List String) →
        (∃ mls, (p.dropLast, mls) ∈ fs.dirs) →
        parentLinkLine (p.dropLast.getLastD ("")) ∈ linesOf c) ∧
      ((p.dropLast = (["src"] : List String) ∨ p.dropLast = ([] : List String)) →
        ∀ x, parentLinkLine x ∉ linesOf c) := by
  intro c hc
  have hq : (p, fls) ∈ discover fs [] := mem_discover_iff.mpr ⟨hmem, hnr, rfl⟩
  have hqS : (p, fls) ∈ orderQueue (discover fs []) := (orderQueue_perm _).mem_iff.mpr hq
  obtain ⟨A, B, hS, hpaths, huniq⟩ := runTool_entry hwf hqS
  have hcd := huniq c hc
  set outsA := runQueue fs [] [] A with houts
  have hnodup : ((orderQueue (discover fs [])).map Prod.fst).Nodup := wf_queue_nodup hwf
  have hnodup2 : (A.map Prod.fst ++ p :: B.map Prod.fst).Nodup := by
    have := hnodup
    rw [hS] at this
    simpa using this
  have hpnotA : p ∉ A.map Prod.fst := by
    have := (List.nodup_middle.mp hnodup2)
    intro hin
    exact (List.nodup_cons.mp this).1 (List.mem_append.mpr (Or.inl hin))
  have hlp : ((([] : List (List String × String)) ++ outsA).lookup p) = none := by
    rw [List.nil_append]
    refine lookup_eq_none_of ?_
    rw [houts, runQueue_paths]
    simpa using hpnotA
  have hsf : stepFiles [] outsA (p, fls) = fls := by
    unfold stepFiles
    rw [hlp]
    simp
  have hinfo : stepInfo fs [] outsA (p, fls) =
      analyze_folder (p.getLastD ("")) fls (subdirNamesOf fs p) := by
    unfold stepInfo
    rw [hsf]
  have hparclean : ∀ x, stepParent fs [] outsA (p, fls) = some x →
      ('\n') ∉ x.data := by
    intro x hx
    rw [stepParent_eq_some hx]
    exact hqnl
  have hlines : linesOf c =
      readmeLines (analyze_folder (p.getLastD ("")) fls (subdirNamesOf fs p))
        (stepParent fs [] outsA (p, fls)) := by
    rw [hcd]
    unfold stepDoc
    rw [hinfo]
    refine linesOf_readme ?_ ?_ ?_ ?_
    · rw [analyze_name]
      exact hnl
    · rw [analyze_files]
      exact hfclean
    · rw [analyze_subfolders]
      intro d hd
      exact hsclean d (List.mem_of_mem_filter hd)
    · exact hparclean
  refine ⟨?_, ?_, ?_⟩
  · rw [hlines]
    unfold readmeLines
    refine List.mem_append.mpr (Or.inl ?_)
    refine List.mem_append.mpr (Or.inr ?_)
    unfold relatedDocSection
    exact List.mem_cons_self _ _
  · intro hqs hqn ⟨mls, hqmem⟩
    have hppos : p ≠ [] := by
      intro he
      rw [he] at hqn
      exact hqn rfl
    have hqlen : p.dropLast.length < p.length := by
      rw [List.length_dropLast]
      have : 0 < p.length := List.length_pos.mpr hppos
      omega
    have hcond : (origReadme fs p.dropLast ||
        ((([] : List (List String × String)) ++ outsA).lookup p.dropLast).isSome) = true := by
      by_cases hmr : hasReadmeFiles mls = true
      · have : origReadme fs p.dropLast = true := by
          unfold origReadme
          rw [List.any_eq_true]
          exact ⟨(p.dropLast, mls), hqmem, by simp [hmr]⟩
        rw [Bool.or_eq_true]
        exact Or.inl this
      · have hqd : (p.dropLast, mls) ∈ discover fs [] :=
          mem_discover_iff.mpr ⟨hqmem, by simpa using hmr, rfl⟩
        have hqdS : (p.dropLast, mls) ∈ orderQueue (discover fs []) :=
          (orderQueue_perm _).mem_iff.mpr hqd
        rw [hS] at hqdS
        have hinA : (p.dropLast, mls) ∈ A := by
          rcases List.mem_append.mp hqdS with hA | hXB
          · exact hA
          · exfalso
            rcases List.mem_cons.mp hXB with he | hB
            · have : p.dropLast = p := congrArg Prod.fst he
              rw [this] at hqlen
              omega
            · have hsort := orderQueue_sorted (discover fs [])
              rw [hS] at hsort
              have hpair := (List.pairwise_append.mp hsort).2.1
              have hrel := List.rel_of_pairwise_cons hpair hB
              unfold depthLe at hrel
              simp at hrel
              omega
        have : p.dropLast ∈ outsA.map Prod.fst := by
          rw [houts, runQueue_paths]
          simpa using List.mem_map_of_mem Prod.fst hinA
        have hsome : ((([] : List (List String × String)) ++ outsA).lookup p.dropLast).isSome = true := by
          rw [List.nil_append]
          exact (lookup_isSome_iff _ _).mpr this
        rw [Bool.or_eq_true]
        exact Or.inr hsome
    have hsp : stepParent fs [] outsA (p, fls) = some (p.dropLast.getLastD ("")) := by
      unfold stepParent
      rw [if_pos ⟨hqs, hqn⟩, if_pos hcond]
    rw [hlines, hsp]
    unfold readmeLines
    refine List.mem_append.mpr (Or.inl ?_)
    refine List.mem_append.mpr (Or.inr ?_)
    unfold relatedDocSection parentLinkLine
    exact List.mem_cons_of_mem _ (List.mem_singleton.mpr rfl)
  · intro hor x
    have hsp : stepParent fs [] outsA (p, fls) = none := by
      unfold stepParent
      rw [if_neg]
      intro ⟨h1, h2⟩
      rcases hor with h | h
      · exact h1 h
      · exact h2 h
    rw [hlines, hsp]
    exact parentLink_not_mem_none _ x

/-- Witness for C4 at a concrete tree `src/apps/web`: the grandchild is
processed after its parent `apps` was created in the same run. -/
theorem claim4_witness :
    (wfPaths (FileSys.mk
        [(["src"], []), (["src", "apps"], []), (["src", "apps", "web"], [])]) ∧
      ((["src", "apps", "web"] : List String),
          ([] : List (String × Option String))) ∈
        (FileSys.mk [(["src"], []), (["src", "apps"], []),
          (["src", "apps", "web"], [])]).dirs) ∧
    ∀ c, ((["src", "apps", "web"] : List String), c) ∈
        runTool (FileSys.mk [(["src"], []), (["src", "apps"], []),
          (["src", "apps", "web"], [])]) [] →
      (("## 📚 Related Documentation") ∈ linesOf c) ∧
      ((["src", "apps", "web"] : List String).dropLast ≠ (["src"] : List String) →
        (["src", "apps", "web"] : List String).dropLast ≠ ([] : List String) →
        (∃ mls, ((["src", "apps", "web"] : List String).dropLast, mls) ∈
          (FileSys.mk [(["src"], []), (["src", "apps"], []),
            (["src", "apps", "web"], [])]).dirs) →
        parentLinkLine ((["src", "apps", "web"] : List String).dropLast.getLastD (""))
          ∈ linesOf c) ∧
    True := by
  have h := claim4_amended
    (FileSys.mk [(["src"], []), (["src", "apps"], []), (["src", "apps", "web"], [])])
    (["src", "apps", "web"]) [] (by decide) (by decide) (by decide) (by decide)
    (by decide) (by decide) (by decide)
  exact ⟨⟨by decide, by decide⟩, fun c hc => ⟨(h c hc).1, (h c hc).2.1, trivial⟩⟩

end ReadmeGen
